import Mathlib

set_option linter.unusedVariables false

/-!
Shallow embedding of the dhi-oss-tracker refresh subsystem.

The Go program discovers repositories adopting a container base image via a
paginated code search, merges them into a SQLite store with an idempotent
upsert, backfills an adoption date, and fans out notifications.  External
effects (HTTP requests, the SQLite engine, sleeps, goroutine spawns) are
modelled as explicit data: scripted API responses, pure list-based stores,
and an event trace recording every external call the code performs.

Timestamps are seconds since the Unix epoch (`Int`); `CURRENT_TIMESTAMP`
becomes an explicit `now` parameter.  Nullable SQL columns are `Option`.
-/

/-- One row of the `projects` table (Go `db.Project`). -/
structure DbProject where
  id : Int
  repoFullName : String
  githubURL : String
  stars : Int
  description : String
  primaryLanguage : String
  dockerfilePath : String
  fileURL : String
  sourceType : String
  adoptedAt : Option Int
  adoptionCommit : String
  firstSeenAt : Int
  lastSeenAt : Int
  createdAt : Int
  updatedAt : Int
deriving DecidableEq, Repr

/-- Parsed form of a config's JSON payload.  `slackPayload` carries the
fields of Go `notifications.SlackConfig`, `emailPayload` those of
`notifications.EmailConfig`; `malformed` stands for a string that
`json.Unmarshal` rejects for the requested target type. -/
inductive ConfigPayload where
  | slackPayload (webhookURL : String) (channel : Option String)
  | emailPayload (toAddr smtpHost : String) (smtpPort : Nat)
      (smtpUsername smtpPassword fromAddr : String)
  | malformed
deriving DecidableEq, Repr

/-- One row of `notification_configs` (Go `db.NotificationConfig`).  The
`config_json` payload is modelled pre-parsed: `ConfigPayload` stands for
the result of unmarshalling the stored JSON string. -/
structure NotificationConfig where
  id : Int
  name : String
  type : String
  enabled : Bool
  configJSON : ConfigPayload
  lastTriggeredAt : Option Int
  createdAt : Int
  updatedAt : Int
deriving DecidableEq, Repr

/-- One row of `notification_logs` (Go `db.NotificationLog`), without the
autoincrement id, which no claim observes. -/
structure NotificationLog where
  configId : Int
  projectId : Option Int
  status : String
  errorMessage : String
  sentAt : Int
deriving DecidableEq, Repr

/-- Every external call the embedded code performs is recorded as one of
these trace events: HTTP requests, sleeps, database writes, the goroutine
spawn, and the single-flight release performed by `runRefresh`'s defer. -/
inductive Event where
  | httpRequest (page : Nat)
  | sleepMs (ms : Nat)
  | detailFetch (repo : String)
  | upsert (repo : String)
  | startJob
  | failJob (msg : String)
  | completeJob (n : Nat)
  | createJob
  | spawnRun
  | release
  | queryWithoutAdoption
  | adoptLookup (repo : String)
  | updateAdoption (id : Int)
  | snapshot
deriving DecidableEq, Repr

/-- Next autoincrement id for an insert into `projects`. -/
def nextId (store : List DbProject) : Int :=
  (store.map (·.id)).foldl max 0 + 1

/-- The `DO UPDATE SET` clause of Go `db.UpsertProject`, applied to the
conflicting row `q` with the excluded row `p`: overwrite `stars`,
`description`, `primary_language`, `dockerfile_path`, `file_url` and
`source_type`; `adopted_at = COALESCE(projects.adopted_at,
excluded.adopted_at)`; stamp `last_seen_at` and `updated_at`. -/
def upsertMerge (now : Int) (p q : DbProject) : DbProject :=
  { q with
    stars := p.stars
    description := p.description
    primaryLanguage := p.primaryLanguage
    dockerfilePath := p.dockerfilePath
    fileURL := p.fileURL
    sourceType := p.sourceType
    adoptedAt := match q.adoptedAt with
      | some t => some t
      | none => p.adoptedAt
    lastSeenAt := now
    updatedAt := now }

/-- Go `db.UpsertProject`: `INSERT ... ON CONFLICT(repo_full_name) DO
UPDATE` (see `upsertMerge`).  The insert path takes the defaults of the
schema for the unnamed columns (`adoption_commit` defaults to the empty
string). -/
def UpsertProject (now : Int) (p : DbProject) (store : List DbProject) : List DbProject :=
  if store.any (fun q => q.repoFullName = p.repoFullName) then
    store.map (fun q =>
      if q.repoFullName = p.repoFullName then upsertMerge now p q else q)
  else
    store ++ [{ p with
      id := nextId store
      adoptionCommit := ""
      firstSeenAt := now
      lastSeenAt := now
      createdAt := now
      updatedAt := now }]

/-- Row predicate of `WHERE adopted_at IS NOT NULL AND adopted_at > ?`. -/
def adoptedAfter (since : Int) (p : DbProject) : Bool :=
  match p.adoptedAt with
  | some t => decide (since < t)
  | none => false

/-- Go `db.GetNewProjectsSince`: projects with a non-null adoption timestamp
strictly greater than `since`, ordered by `adopted_at DESC`. -/
def GetNewProjectsSince (since : Int) (store : List DbProject) : List DbProject :=
  List.insertionSort (fun a b => b.adoptedAt.getD 0 ≤ a.adoptedAt.getD 0)
    (store.filter (adoptedAfter since))

/-- Go `db.GetNewProjectsCount`: `COUNT(*)` over the same `WHERE` clause. -/
def GetNewProjectsCount (since : Int) (store : List DbProject) : Nat :=
  (store.filter (adoptedAfter since)).length

/-- Go `db.GetProjectsWithoutAdoptionDate`: `WHERE adopted_at IS NULL`. -/
def GetProjectsWithoutAdoptionDate (store : List DbProject) : List DbProject :=
  store.filter (fun p => p.adoptedAt.isNone)

/-- Go `db.UpdateProjectAdoption`: set `adopted_at`, `adoption_commit` and
`updated_at` on the row with the given id. -/
def UpdateProjectAdoption (now : Int) (id : Int) (adoptedAt : Int) (commitURL : String)
    (store : List DbProject) : List DbProject :=
  store.map (fun q =>
    if q.id = id then
      { q with adoptedAt := some adoptedAt, adoptionCommit := commitURL, updatedAt := now }
    else q)

/-- Day-of-week of a timestamp in Go's `time.Weekday` numbering
(0 = Sunday, ..., 6 = Saturday); 1970-01-01 was a Thursday (= 4). -/
def goWeekday (t : Int) : Int :=
  (t / 86400 + 4) % 7

/-- Go `api.startOfWeek`: truncate to UTC, treat Sunday as weekday 7, go
back to Monday of the same week and return midnight of that Monday. -/
def startOfWeek (t : Int) : Int :=
  let day := t / 86400
  let weekday := goWeekday t
  let w := if weekday = 0 then 7 else weekday
  (day - (w - 1)) * 86400

/-- Value of a digit string, `none` if empty or not all digits (the digit
parsing inside Go `strconv.Atoi`). -/
def digitsVal : List Char → Option Nat
  | [] => none
  | cs => if cs.all (·.isDigit) then
      some (cs.foldl (fun n c => n * 10 + (c.toNat - 48)) 0)
    else none

/-- Go `strconv.Atoi`: optional sign followed by digits. -/
def atoiInt : List Char → Option Int
  | '+' :: rest => (digitsVal rest).map Int.ofNat
  | '-' :: rest => (digitsVal rest).map (fun n => -(n : Int))
  | cs => (digitsVal cs).map Int.ofNat

/-- Go `api.parseDuration`: strings like `"7d"`, `"1w"`, `"24h"`; last
character selects the unit, the rest is parsed with `strconv.Atoi`.
Returns the duration in seconds. -/
def parseDuration (s : String) : Option Int :=
  let cs := s.toList
  if cs.length < 2 then none
  else
    match atoiInt cs.dropLast with
    | none => none
    | some v =>
      match cs.getLast? with
      | some 'd' => some (v * 86400)
      | some 'w' => some (v * (7 * 86400))
      | some 'h' => some (v * 3600)
      | _ => none

/-- Core of Go `api.handleNewProjects`: resolve the `since` parameter
(defaulting to `"thisweek"`) to a cutoff instant and query the store.
`none` models the HTTP 400 response for an unparsable parameter. -/
def newRecordsSince (sinceStr : String) (now : Int) (store : List DbProject) :
    Option (List DbProject) :=
  let s := if sinceStr = "" then "thisweek" else sinceStr
  if s = "thisweek" then
    some (GetNewProjectsSince (startOfWeek now) store)
  else
    match parseDuration s with
    | none => none
    | some d => some (GetNewProjectsSince (now - d) store)

/-- An item of GitHub's code-search response (`github.CodeSearchResult`). -/
structure SearchItem where
  path : String
  repoFullName : String
  htmlURL : String
deriving DecidableEq, Repr

/-- A page of GitHub's code-search response (`github.CodeSearchResponse`).
`incomplete_results` is never read by the crawler and is omitted. -/
structure CodeSearchResponse where
  totalCount : Nat
  items : List SearchItem
deriving DecidableEq, Repr

/-- Scripted behaviour of the external world at one iteration of the search
loop: either the context is cancelled at the top of the iteration, or the
HTTP request is issued and yields a 403 rate-limit error, another non-200
error, or a page. -/
inductive ScriptStep where
  | cancel
  | rateLimited
  | apiError (msg : String)
  | ok (resp : CodeSearchResponse)
deriving DecidableEq, Repr

/-- How a crawl ended.  `starved` means the script ran out of entries while
the loop still wanted another iteration (the run is outside the scripted
window); the Go code itself can only end in the other three ways. -/
inductive CrawlStatus where
  | ok
  | cancelled
  | apiError (msg : String)
  | starved
deriving DecidableEq, Repr

/-- Result of a crawl: the accumulated repo-to-path map (an insertion-ordered
association list), how the loop ended, and the event trace. -/
structure CrawlOutcome where
  repos : List (String × String)
  status : CrawlStatus
  events : List Event
deriving DecidableEq, Repr

/-- Fixed page size of the code search (Go `perPage := 100`). -/
def perPage : Nat := 100

/-- Lookup in the accumulated repo map (Go `repos[item.Repository.FullName]`). -/
def lookupRepo (repos : List (String × String)) (name : String) : Option String :=
  (repos.find? (fun e => e.1 = name)).map (·.2)

/-- Merge one page of hits into the map, keeping the first path seen per
repository (Go: `if _, exists := repos[...]; !exists`). -/
def mergeItems (repos : List (String × String)) (items : List SearchItem) :
    List (String × String) :=
  items.foldl
    (fun m it =>
      if (lookupRepo m it.repoFullName).isSome then m
      else m ++ [(it.repoFullName, it.path)])
    repos

/-- The `for` loop of Go `github.SearchDHIDockerfiles`.  One script step is
consumed per iteration.  On a rate limit: sleep 60s and retry the same page.
On success: merge the page, then stop if the page was short, or the
cumulative offset reached `total_count`, or the 10-page ceiling is hit;
otherwise sleep the 6s search delay and advance to the next page. -/
def searchLoop : List ScriptStep → Nat → List (String × String) → List Event → CrawlOutcome
  | [], _, repos, evs => ⟨repos, .starved, evs⟩
  | .cancel :: _, _, repos, evs => ⟨repos, .cancelled, evs⟩
  | .rateLimited :: rest, page, repos, evs =>
      searchLoop rest page repos (evs ++ [.httpRequest page, .sleepMs 60000])
  | .apiError msg :: _, page, repos, evs =>
      ⟨repos, .apiError msg, evs ++ [.httpRequest page]⟩
  | .ok resp :: rest, page, repos, evs =>
      let repos' := mergeItems repos resp.items
      let evs' := evs ++ [.httpRequest page]
      if resp.items.length < perPage ∨ resp.totalCount ≤ page * perPage then
        ⟨repos', .ok, evs'⟩
      else if 10 ≤ page then
        ⟨repos', .ok, evs'⟩
      else
        searchLoop rest (page + 1) repos' (evs' ++ [.sleepMs 6000])

/-- Go `github.SearchDHIDockerfiles`: run the loop from page 1 with an empty
map. -/
def SearchDHIDockerfiles (script : List ScriptStep) : CrawlOutcome :=
  searchLoop script 1 [] []

/-- Pages requested by a trace, in order (one entry per HTTP search call,
including rate-limited attempts). -/
def requestedPages (evs : List Event) : List Nat :=
  evs.filterMap (fun e => match e with
    | .httpRequest p => some p
    | _ => none)

/-- Repository metadata returned by the repo-details endpoint
(Go `github.RepoDetails`). -/
structure RepoDetails where
  fullName : String
  htmlURL : String
  description : String
  stargazersCount : Int
  language : String
deriving DecidableEq, Repr

/-- Scripted behaviour of `GetRepoDetails` for one repository: success,
rate-limited first attempt whose single retry succeeds, rate-limited first
attempt whose retry fails again, or a non-rate-limit error. -/
inductive DetailScript where
  | ok (d : RepoDetails)
  | rateLimitedThenOk (d : RepoDetails)
  | rateLimitedThenErr
  | otherErr
deriving DecidableEq, Repr

/-- In-memory project assembled in Go `github.FetchAllProjects` from a
search hit plus repo details (`github.Project`).  `fileURL` and
`sourceType` stay at their zero value, as `FetchAllProjects` never sets
them. -/
structure GhProject where
  repoFullName : String
  githubURL : String
  stars : Int
  description : String
  primaryLanguage : String
  dockerfilePath : String
  fileURL : String
  sourceType : String
deriving DecidableEq, Repr

/-- Outcome of the detail-fetch phase: projects assembled so far, `some err`
if the context was cancelled mid-loop, and the event trace. -/
structure DetailOutcome where
  projects : List GhProject
  error : Option String
  events : List Event
deriving DecidableEq, Repr

/-- Build the `github.Project` literal of `FetchAllProjects`: all metadata
comes from the details response (including the repository name), only the
dockerfile path comes from the search hit. -/
def mkGhProject (d : RepoDetails) (dockerfilePath : String) : GhProject :=
  { repoFullName := d.fullName
    githubURL := d.htmlURL
    stars := d.stargazersCount
    description := d.description
    primaryLanguage := d.language
    dockerfilePath := dockerfilePath
    fileURL := ""
    sourceType := "" }

/-- The detail-fetch loop of Go `github.FetchAllProjects`.  `cancel i`
models `ctx.Done()` firing at the top of iteration `i`.  On a rate-limited
first attempt the code sleeps 60s and retries exactly once; a repository
whose fetch fails is skipped and never aborts the loop.  After each
successful fetch the code sleeps 1s. -/
def detailLoop (detail : String → DetailScript) (cancel : Nat → Bool) :
    List (String × String) → Nat → List GhProject → List Event → DetailOutcome
  | [], _, acc, evs => ⟨acc, none, evs⟩
  | (name, path) :: rest, i, acc, evs =>
      if cancel i then ⟨acc, some "context cancelled", evs⟩
      else
        match detail name with
        | .ok d =>
            detailLoop detail cancel rest (i + 1) (acc ++ [mkGhProject d path])
              (evs ++ [.detailFetch name, .sleepMs 1000])
        | .rateLimitedThenOk d =>
            detailLoop detail cancel rest (i + 1) (acc ++ [mkGhProject d path])
              (evs ++ [.detailFetch name, .sleepMs 60000, .detailFetch name, .sleepMs 1000])
        | .rateLimitedThenErr =>
            detailLoop detail cancel rest (i + 1) acc
              (evs ++ [.detailFetch name, .sleepMs 60000, .detailFetch name])
        | .otherErr =>
            detailLoop detail cancel rest (i + 1) acc
              (evs ++ [.detailFetch name])

/-- Go `github.FetchAllProjects`: search for all repositories, then fetch
details for each.  A search failure (including cancellation) aborts with an
error; detail-phase cancellation returns the projects collected so far with
the context error. -/
def FetchAllProjects (script : List ScriptStep) (detail : String → DetailScript)
    (cancel : Nat → Bool) : DetailOutcome :=
  let crawl := SearchDHIDockerfiles script
  match crawl.status with
  | .ok => detailLoop detail cancel crawl.repos 0 [] crawl.events
  | .cancelled => ⟨[], some "searching dockerfiles: context cancelled", crawl.events⟩
  | .apiError msg => ⟨[], some ("searching dockerfiles: " ++ msg), crawl.events⟩
  | .starved => ⟨[], some "searching dockerfiles: script exhausted", crawl.events⟩

/-- Scripted behaviour of `GetFileFirstCommit` for one repository: success,
rate-limited first attempt whose single retry succeeds, rate-limited first
attempt whose retry fails again, or a non-rate-limit error. -/
inductive AdoptScript where
  | ok (date : Int) (commitURL : String)
  | rateLimitedThenOk (date : Int) (commitURL : String)
  | rateLimitedThenErr
  | otherErr
deriving DecidableEq, Repr

/-- The per-record loop of Go `api.fetchAdoptionDates`.  `cancel i` models
`ctx.Done()` firing at the top of iteration `i`.  A rate-limited lookup
sleeps 60s and retries exactly once; any failed record is skipped with
`continue` (which also skips the trailing 500ms sleep); a successful record
is written with `UpdateProjectAdoption` and followed by the 500ms sleep. -/
def adoptLoop (oracle : String → AdoptScript) (cancel : Nat → Bool) (now : Int) :
    List DbProject → Nat → List DbProject → List Event → List DbProject × List Event
  | [], _, store, evs => (store, evs)
  | p :: rest, i, store, evs =>
      if cancel i then (store, evs)
      else
        match oracle p.repoFullName with
        | .ok date commitURL =>
            adoptLoop oracle cancel now rest (i + 1)
              (UpdateProjectAdoption now p.id date commitURL store)
              (evs ++ [.adoptLookup p.repoFullName, .updateAdoption p.id, .sleepMs 500])
        | .rateLimitedThenOk date commitURL =>
            adoptLoop oracle cancel now rest (i + 1)
              (UpdateProjectAdoption now p.id date commitURL store)
              (evs ++ [.adoptLookup p.repoFullName, .sleepMs 60000,
                .adoptLookup p.repoFullName, .updateAdoption p.id, .sleepMs 500])
        | .rateLimitedThenErr =>
            adoptLoop oracle cancel now rest (i + 1) store
              (evs ++ [.adoptLookup p.repoFullName, .sleepMs 60000,
                .adoptLookup p.repoFullName])
        | .otherErr =>
            adoptLoop oracle cancel now rest (i + 1) store
              (evs ++ [.adoptLookup p.repoFullName])

/-- Go `api.fetchAdoptionDates`: query the records with a null adoption
timestamp and run the backfill loop over exactly those. -/
def fetchAdoptionDates (oracle : String → AdoptScript) (cancel : Nat → Bool) (now : Int)
    (store : List DbProject) : List DbProject × List Event :=
  adoptLoop oracle cancel now (GetProjectsWithoutAdoptionDate store) 0 store
    [.queryWithoutAdoption]

/-- A constructed notification provider, i.e. a config payload that passed
construction-time validation (Go `slackProvider` / `emailProvider`). -/
inductive Provider where
  | slack (webhookURL : String) (channel : Option String)
  | email (toAddr smtpHost : String) (smtpPort : Nat)
      (smtpUsername smtpPassword fromAddr : String)
deriving DecidableEq, Repr

/-- Go `notifications.newSlackProvider`: unmarshal the payload as a Slack
config and require a non-empty `webhook_url`. -/
def newSlackProvider : ConfigPayload → Except String Provider
  | .slackPayload url channel =>
      if url = "" then .error "webhook_url is required"
      else .ok (.slack url channel)
  | _ => .error "parsing slack config"

/-- Go `notifications.newEmailProvider`: unmarshal the payload as an email
config and require `to`, `smtp_host`, a non-zero `smtp_port` and `from`. -/
def newEmailProvider : ConfigPayload → Except String Provider
  | .emailPayload toAddr smtpHost smtpPort smtpUsername smtpPassword fromAddr =>
      if toAddr = "" ∨ smtpHost = "" ∨ smtpPort = 0 ∨ fromAddr = "" then
        .error "missing required email config fields"
      else .ok (.email toAddr smtpHost smtpPort smtpUsername smtpPassword fromAddr)
  | _ => .error "parsing email config"

/-- Go `notifications.Service.createProvider`: dispatch on the stored
channel type; an unknown type is a handled error. -/
def createProvider (config : NotificationConfig) : Except String Provider :=
  match config.type with
  | "slack" => newSlackProvider config.configJSON
  | "email" => newEmailProvider config.configJSON
  | _ => .error ("unknown notification type: " ++ config.type)

/-- The notification-visible slice of the database: configs and the
append-only delivery log. -/
structure NotifyState where
  configs : List NotificationConfig
  logs : List NotificationLog
deriving DecidableEq, Repr

/-- Go `db.GetEnabledNotificationConfigs`. -/
def GetEnabledNotificationConfigs (st : NotifyState) : List NotificationConfig :=
  st.configs.filter (·.enabled)

/-- Go `db.UpdateNotificationTriggered`: stamp `last_triggered_at` on the
config row with the given id. -/
def UpdateNotificationTriggered (now : Int) (configId : Int) (st : NotifyState) :
    NotifyState :=
  { st with configs := st.configs.map (fun c =>
      if c.id = configId then { c with lastTriggeredAt := some now } else c) }

/-- Go `db.CreateNotificationLog` via `Service.logNotification`. -/
def logNotification (now : Int) (configId : Int) (projectId : Option Int)
    (status errorMsg : String) (st : NotifyState) : NotifyState :=
  { st with logs := st.logs ++ [⟨configId, projectId, status, errorMsg, now⟩] }

/-- Body of the per-config iteration of Go
`notifications.Service.NotifyNewProjects`: build a provider (logging a
synthetic failure with a null project id and skipping the config if that
fails), otherwise send once per project, log each attempt as `sent` or
`failed`, and finally stamp the config's `last_triggered_at`. -/
def notifyConfigStep (sendOk : Int → Int → Bool) (now : Int)
    (projects : List DbProject) (st : NotifyState) (config : NotificationConfig) :
    NotifyState :=
  match createProvider config with
  | .error e =>
      logNotification now config.id none "failed" ("failed to create provider: " ++ e) st
  | .ok _ =>
      let st := projects.foldl
        (fun st project =>
          if sendOk config.id project.id then
            logNotification now config.id (some project.id) "sent" "" st
          else
            logNotification now config.id (some project.id) "failed" "send error" st)
        st
      UpdateNotificationTriggered now config.id st

/-- Go `notifications.Service.NotifyNewProjects`: a no-op on an empty
project list, otherwise fan out over the enabled configs.  `sendOk` is the
oracle for the outcome of each `provider.Send` call, keyed by config id and
project id. -/
def NotifyNewProjects (sendOk : Int → Int → Bool) (now : Int)
    (projects : List DbProject) (st : NotifyState) : NotifyState :=
  if projects.isEmpty then st
  else
    (GetEnabledNotificationConfigs st).foldl (notifyConfigStep sendOk now projects) st

/-- Response of the `/api/refresh` handler (Go `api.handleRefresh`). -/
inductive RefreshResponse where
  | started (jobId : Int)
  | alreadyRunning
  | serverError
deriving DecidableEq, Repr

/-- The mutex-protected check-and-set at the top of `handleRefresh` and
`TriggerRefresh`: under `refreshMu`, read `refreshRunning` and set it if it
was clear.  The mutex makes the whole check-and-set one atomic step, so a
concurrent burst of callers is modelled as these steps executing in some
serial order. -/
def tryStart (flag : Bool) : Bool × Bool :=
  if flag then (false, flag) else (true, true)

/-- Go `api.handleRefresh` after the method check: try to take the
single-flight flag; if it is already set, answer "already in progress"
without touching the store.  Otherwise create the job row; if that fails,
clear the flag and answer with a 500; on success spawn the background run
and answer with the job id.  `createJob` scripts the outcome of
`db.CreateRefreshJob`. -/
def handleRefresh (createJob : Except String Int) (flag : Bool) :
    RefreshResponse × Bool × List Event :=
  let (ok, flag') := tryStart flag
  if ok then
    match createJob with
    | .error _ => (.serverError, false, [])
    | .ok jobId => (.started jobId, flag', [.createJob, .spawnRun])
  else
    (.alreadyRunning, flag', [])

/-- Go `api.TriggerRefresh` (the scheduler entry point): identical guard and
early exits, returning whether a refresh was started. -/
def TriggerRefresh (createJob : Except String Int) (flag : Bool) :
    Bool × Bool × List Event :=
  let (ok, flag') := tryStart flag
  if ok then
    match createJob with
    | .error _ => (false, false, [])
    | .ok _ => (true, flag', [.createJob, .spawnRun])
  else
    (false, flag', [])

/-- A serial burst of `n` concurrent `/api/refresh` callers: the mutex
serialises their check-and-sets in some order, and no run ends during the
burst, so each caller executes `handleRefresh` on the flag left by the
previous one.  `jobIds i` scripts the id `db.CreateRefreshJob` returns for
caller `i` (job creation succeeding for all of them). -/
def refreshBurst (jobIds : Nat → Int) : Nat → Bool → List RefreshResponse × Bool
  | 0, flag => ([], flag)
  | n + 1, flag =>
      let (resp, flag', _) := handleRefresh (.ok (jobIds n)) flag
      let (rest, flagEnd) := refreshBurst jobIds n flag'
      (resp :: rest, flagEnd)

/-- The database state visible to one refresh run: the `projects` table and
the notification tables.  Job and snapshot rows are recorded on the event
trace (`Event.startJob`, `.failJob`, `.completeJob`, `.snapshot`). -/
structure Store where
  projects : List DbProject
  notify : NotifyState
deriving DecidableEq, Repr

/-- All scripted external behaviour one refresh run consumes. -/
structure RunEnv where
  startJobOk : Bool
  script : List ScriptStep
  detail : String → DetailScript
  detailCancel : Nat → Bool
  adopt : String → AdoptScript
  adoptCancel : Nat → Bool
  sendOk : Int → Int → Bool
  now : Int

/-- The field copy from `github.Project` into the `db.Project` literal that
Go `api.runRefresh` upserts (`AdoptedAt` is left at its zero value `nil`). -/
def toDbProject (p : GhProject) : DbProject :=
  { id := 0
    repoFullName := p.repoFullName
    githubURL := p.githubURL
    stars := p.stars
    description := p.description
    primaryLanguage := p.primaryLanguage
    dockerfilePath := p.dockerfilePath
    fileURL := p.fileURL
    sourceType := p.sourceType
    adoptedAt := none
    adoptionCommit := ""
    firstSeenAt := 0
    lastSeenAt := 0
    createdAt := 0
    updatedAt := 0 }

/-- Go `api.runRefresh`: mark the job running; crawl and fetch details
(failing the job and stopping on error); upsert every fetched project;
complete the job with the number of fetched projects; backfill adoption
dates; notify about this week's new projects; record a snapshot.  The
`defer` clears the single-flight flag on every path, recorded as the final
`Event.release`. -/
def runRefresh (env : RunEnv) (st : Store) : Store × List Event :=
  if env.startJobOk then
    let fetched := FetchAllProjects env.script env.detail env.detailCancel
    match fetched.error with
    | some err =>
        (st, [.startJob] ++ fetched.events ++ [.failJob err, .release])
    | none =>
        let projects := fetched.projects
        let store1 := projects.foldl
          (fun s p => UpsertProject env.now (toDbProject p) s) st.projects
        let upsertEvs := projects.map (fun p => Event.upsert p.repoFullName)
        let backfilled :=
          fetchAdoptionDates env.adopt env.adoptCancel env.now store1
        let newProjects := GetNewProjectsSince (startOfWeek env.now) backfilled.1
        let notify' :=
          if newProjects.isEmpty then st.notify
          else NotifyNewProjects env.sendOk env.now newProjects st.notify
        (⟨backfilled.1, notify'⟩,
          [.startJob] ++ fetched.events ++ upsertEvs
            ++ [.completeJob projects.length] ++ backfilled.2 ++ [.snapshot, .release])
  else
    (st, [.startJob, .release])

/-- A throwaway concrete project row used by witnesses. -/
def baseProject : DbProject :=
  { id := 1, repoFullName := "octo/repo", githubURL := "https://github.com/octo/repo"
    stars := 3, description := "d", primaryLanguage := "Go"
    dockerfilePath := "Dockerfile", fileURL := "f", sourceType := "code"
    adoptedAt := none, adoptionCommit := "", firstSeenAt := 0, lastSeenAt := 0
    createdAt := 0, updatedAt := 0 }

theorem find?_map_upsert (now : Int) (p : DbProject) :
    ∀ (store : List DbProject) (q : DbProject),
      store.find? (fun r => r.repoFullName = p.repoFullName) = some q →
      (store.map (fun r => if r.repoFullName = p.repoFullName then upsertMerge now p r else r)).find?
          (fun r => r.repoFullName = p.repoFullName) = some (upsertMerge now p q)
  | [], q, h => by simp at h
  | r :: rest, q, h => by
      by_cases hr : r.repoFullName = p.repoFullName
      · rw [List.find?_cons_of_pos _ (by simpa using hr)] at h
        have hq : q = r := (Option.some.inj h).symm
        subst hq
        have hpres : (upsertMerge now p q).repoFullName = q.repoFullName := rfl
        rw [List.map_cons, if_pos hr,
          List.find?_cons_of_pos _ (by simp only [hpres]; simpa using hr)]
      · rw [List.find?_cons_of_neg _ (by simpa using hr)] at h
        rw [List.map_cons, if_neg hr, List.find?_cons_of_neg _ (by simpa using hr)]
        exact find?_map_upsert now p rest q h

/-- C1: for a project already stored under the same `repo_full_name`, the
upsert overwrites `stars`, `description`, `primary_language`,
`dockerfile_path`, `file_url` and `source_type` with the new scan's values,
while `adopted_at` follows `COALESCE(existing, candidate)`: a non-null
stored value survives unchanged whatever the candidate is, and a null one
takes the candidate. -/
theorem upsert_existing_row_merge (now : Int) (p q : DbProject) (store : List DbProject)
    (h : store.find? (fun r => r.repoFullName = p.repoFullName) = some q) :
    (UpsertProject now p store).find? (fun r => r.repoFullName = p.repoFullName)
        = some (upsertMerge now p q)
      ∧ (upsertMerge now p q).stars = p.stars
      ∧ (upsertMerge now p q).description = p.description
      ∧ (upsertMerge now p q).primaryLanguage = p.primaryLanguage
      ∧ (upsertMerge now p q).dockerfilePath = p.dockerfilePath
      ∧ (upsertMerge now p q).fileURL = p.fileURL
      ∧ (upsertMerge now p q).sourceType = p.sourceType
      ∧ (∀ t, q.adoptedAt = some t → (upsertMerge now p q).adoptedAt = some t)
      ∧ (q.adoptedAt = none → (upsertMerge now p q).adoptedAt = p.adoptedAt) := by
  have hq := List.mem_of_find?_eq_some h
  have hqp : q.repoFullName = p.repoFullName := by
    have := List.find?_some h
    simpa using this
  have hany : store.any (fun r => r.repoFullName = p.repoFullName) = true := by
    simp only [List.any_eq_true]
    exact ⟨q, hq, by simpa using hqp⟩
  refine ⟨?_, rfl, rfl, rfl, rfl, rfl, rfl, ?_, ?_⟩
  · rw [UpsertProject, if_pos hany]
    exact find?_map_upsert now p store q h
  · intro t ht
    simp [upsertMerge, ht]
  · intro ht
    simp [upsertMerge, ht]

theorem upsert_existing_row_merge_witness :
    ([{ baseProject with adoptedAt := some 5 }].find?
        (fun r => r.repoFullName = baseProject.repoFullName)
        = some { baseProject with adoptedAt := some 5 })
      ∧ (UpsertProject 99 baseProject [{ baseProject with adoptedAt := some 5 }]).find?
          (fun r => r.repoFullName = baseProject.repoFullName)
        = some (upsertMerge 99 baseProject { baseProject with adoptedAt := some 5 }) :=
  ⟨by decide,
    (upsert_existing_row_merge 99 baseProject { baseProject with adoptedAt := some 5 }
      [{ baseProject with adoptedAt := some 5 }] (by decide)).1⟩

theorem mem_getNewProjectsSince {since : Int} {store : List DbProject} {p : DbProject} :
    p ∈ GetNewProjectsSince since store ↔ p ∈ store ∧ adoptedAfter since p = true := by
  unfold GetNewProjectsSince
  rw [List.mem_insertionSort, List.mem_filter]

theorem adoptedAfter_true_iff {since : Int} {p : DbProject} :
    adoptedAfter since p = true ↔ ∃ t, p.adoptedAt = some t ∧ since < t := by
  unfold adoptedAfter
  cases h : p.adoptedAt with
  | none => simp
  | some t => simp

/-- C10: the new-records lookup and count compare `adopted_at` strictly
against the cutoff: a record whose adoption timestamp equals the cutoff is
excluded from both, and a record with a null adoption timestamp is never
returned or counted. -/
theorem new_records_strict_cutoff :
    (∀ (since : Int) (store : List DbProject) (p : DbProject),
        p ∈ GetNewProjectsSince since store →
          p ∈ store ∧ ∃ t, p.adoptedAt = some t ∧ since < t)
    ∧ (∀ (since : Int) (store : List DbProject) (p : DbProject),
        p.adoptedAt = some since ∨ p.adoptedAt = none →
          p ∉ GetNewProjectsSince since store)
    ∧ (∀ (since : Int) (store : List DbProject),
        GetNewProjectsCount since store = (GetNewProjectsSince since store).length)
    ∧ (∀ (since : Int) (store : List DbProject) (p : DbProject),
        p.adoptedAt = some since ∨ p.adoptedAt = none →
          GetNewProjectsCount since (p :: store) = GetNewProjectsCount since store) := by
  have hbad : ∀ (since : Int) (p : DbProject),
      p.adoptedAt = some since ∨ p.adoptedAt = none → adoptedAfter since p = false := by
    intro since p hp
    cases hp with
    | inl h => simp [adoptedAfter, h]
    | inr h => simp [adoptedAfter, h]
  refine ⟨?_, ?_, ?_, ?_⟩
  · intro since store p hp
    have := mem_getNewProjectsSince.mp hp
    exact ⟨this.1, adoptedAfter_true_iff.mp this.2⟩
  · intro since store p hp hmem
    have := (mem_getNewProjectsSince.mp hmem).2
    rw [hbad since p hp] at this
    exact Bool.false_ne_true this
  · intro since store
    unfold GetNewProjectsSince GetNewProjectsCount
    exact (List.Perm.length_eq (List.perm_insertionSort _ _)).symm
  · intro since store p hp
    unfold GetNewProjectsCount
    rw [List.filter_cons, hbad since p hp]
    simp

theorem new_records_strict_cutoff_witness :
    ({ baseProject with adoptedAt := some 42 }.adoptedAt = some 42
        ∨ { baseProject with adoptedAt := some 42 }.adoptedAt = none)
      ∧ GetNewProjectsCount 42 [{ baseProject with adoptedAt := some 42 }]
          = GetNewProjectsCount 42 [] :=
  ⟨Or.inl rfl,
    new_records_strict_cutoff.2.2.2 42 [] { baseProject with adoptedAt := some 42 }
      (Or.inl rfl)⟩

/-- C3: with the single-flight flag already set, both refresh entry points
answer "already running", leave the flag as it was, create no job row and
spawn no background run (empty event trace); and when `CreateRefreshJob`
fails, both entry points clear the flag and return without creating a job
row or spawning a run, so no job ever starts on either early exit. -/
theorem refresh_early_exits :
    (∀ createJob : Except String Int,
        handleRefresh createJob true = (.alreadyRunning, true, []))
    ∧ (∀ msg : String,
        handleRefresh (.error msg) false = (.serverError, false, []))
    ∧ (∀ createJob : Except String Int,
        TriggerRefresh createJob true = (false, true, []))
    ∧ (∀ msg : String,
        TriggerRefresh (.error msg) false = (false, false, [])) := by
  refine ⟨?_, ?_, ?_, ?_⟩ <;> intro x <;> rfl

/-- Events that the crawl, detail-fetch, upsert and backfill phases can
emit.  None of them is a job-state write, a spawn or the single-flight
release. -/
def isPhaseEvent : Event → Bool
  | .httpRequest _ => true
  | .sleepMs _ => true
  | .detailFetch _ => true
  | .upsert _ => true
  | .queryWithoutAdoption => true
  | .adoptLookup _ => true
  | .updateAdoption _ => true
  | _ => false

theorem searchLoop_all_phase :
    ∀ (script : List ScriptStep) (page : Nat) (repos : List (String × String))
      (evs : List Event), evs.all isPhaseEvent = true →
      ((searchLoop script page repos evs).events).all isPhaseEvent = true
  | [], page, repos, evs => fun h => h
  | .cancel :: rest, page, repos, evs => fun h => h
  | .rateLimited :: rest, page, repos, evs => fun h => by
      simp only [searchLoop]
      exact searchLoop_all_phase rest page repos _ (by simp [List.all_append, h, isPhaseEvent])
  | .apiError msg :: rest, page, repos, evs => fun h => by
      simp only [searchLoop]
      simp [List.all_append, h, isPhaseEvent]
  | .ok resp :: rest, page, repos, evs => fun h => by
      simp only [searchLoop]
      by_cases h1 : resp.items.length < perPage ∨ resp.totalCount ≤ page * perPage
      · rw [if_pos h1]
        simp [List.all_append, h, isPhaseEvent]
      · rw [if_neg h1]
        by_cases h2 : 10 ≤ page
        · rw [if_pos h2]
          simp [List.all_append, h, isPhaseEvent]
        · rw [if_neg h2]
          exact searchLoop_all_phase rest (page + 1) _ _
            (by simp [List.all_append, h, isPhaseEvent])

theorem detailLoop_all_phase (detail : String → DetailScript) (cancel : Nat → Bool) :
    ∀ (repos : List (String × String)) (i : Nat) (acc : List GhProject)
      (evs : List Event), evs.all isPhaseEvent = true →
      ((detailLoop detail cancel repos i acc evs).events).all isPhaseEvent = true
  | [], i, acc, evs => fun h => h
  | (name, path) :: rest, i, acc, evs => fun h => by
      simp only [detailLoop]
      by_cases hc : cancel i
      · rw [if_pos hc]
        exact h
      · rw [if_neg hc]
        cases detail name with
        | ok d =>
            exact detailLoop_all_phase detail cancel rest (i + 1) _ _
              (by simp [List.all_append, h, isPhaseEvent])
        | rateLimitedThenOk d =>
            exact detailLoop_all_phase detail cancel rest (i + 1) _ _
              (by simp [List.all_append, h, isPhaseEvent])
        | rateLimitedThenErr =>
            exact detailLoop_all_phase detail cancel rest (i + 1) _ _
              (by simp [List.all_append, h, isPhaseEvent])
        | otherErr =>
            exact detailLoop_all_phase detail cancel rest (i + 1) _ _
              (by simp [List.all_append, h, isPhaseEvent])

theorem adoptLoop_all_phase (oracle : String → AdoptScript) (cancel : Nat → Bool) (now : Int) :
    ∀ (todo : List DbProject) (i : Nat) (store : List DbProject)
      (evs : List Event), evs.all isPhaseEvent = true →
      ((adoptLoop oracle cancel now todo i store evs).2).all isPhaseEvent = true
  | [], i, store, evs => fun h => h
  | p :: rest, i, store, evs => fun h => by
      simp only [adoptLoop]
      by_cases hc : cancel i
      · rw [if_pos hc]
        exact h
      · rw [if_neg hc]
        cases oracle p.repoFullName with
        | ok date commitURL =>
            exact adoptLoop_all_phase oracle cancel now rest (i + 1) _ _
              (by simp [List.all_append, h, isPhaseEvent])
        | rateLimitedThenOk date commitURL =>
            exact adoptLoop_all_phase oracle cancel now rest (i + 1) _ _
              (by simp [List.all_append, h, isPhaseEvent])
        | rateLimitedThenErr =>
            exact adoptLoop_all_phase oracle cancel now rest (i + 1) _ _
              (by simp [List.all_append, h, isPhaseEvent])
        | otherErr =>
            exact adoptLoop_all_phase oracle cancel now rest (i + 1) _ _
              (by simp [List.all_append, h, isPhaseEvent])

theorem fetchAllProjects_all_phase (script : List ScriptStep)
    (detail : String → DetailScript) (cancel : Nat → Bool) :
    ((FetchAllProjects script detail cancel).events).all isPhaseEvent = true := by
  have hcrawl := searchLoop_all_phase script 1 [] [] rfl
  simp only [FetchAllProjects]
  cases hstat : (SearchDHIDockerfiles script).status <;> simp only [hstat]
  case ok => exact detailLoop_all_phase detail cancel _ 0 [] _ hcrawl
  case cancelled => exact hcrawl
  case apiError msg => exact hcrawl
  case starved => exact hcrawl

theorem fetchAdoptionDates_all_phase (oracle : String → AdoptScript)
    (cancel : Nat → Bool) (now : Int) (store : List DbProject) :
    ((fetchAdoptionDates oracle cancel now store).2).all isPhaseEvent = true :=
  adoptLoop_all_phase oracle cancel now _ 0 store _ rfl

theorem countP_release_of_all_phase {evs : List Event}
    (h : evs.all isPhaseEvent = true) :
    evs.countP (fun e => e = Event.release) = 0 := by
  rw [List.countP_eq_zero]
  intro a ha
  have := (List.all_eq_true.mp h) a ha
  cases a <;> simp_all [isPhaseEvent]

/-- Whether a caller's response was the successful "refresh started" one. -/
def isStarted : RefreshResponse → Bool
  | .started _ => true
  | _ => false

theorem refreshBurst_running (jobIds : Nat → Int) :
    ∀ n : Nat, refreshBurst jobIds n true = (List.replicate n .alreadyRunning, true)
  | 0 => rfl
  | n + 1 => by
      have ih := refreshBurst_running jobIds n
      simp [refreshBurst, handleRefresh, tryStart, ih, List.replicate_succ]

/-- C2: in a serial burst of concurrent refresh callers starting with the
single-flight flag clear, exactly one caller gets a "started" response and
all the others get "already running" (the mutex-protected check-and-set is
modelled as one atomic step, so any interleaving is some serial order);
and every background run clears the flag exactly once when it ends — its
trace carries exactly one release event — whatever phase failed. -/
theorem single_flight_guard :
    (∀ (jobIds : Nat → Int) (n : Nat), 1 ≤ n →
      (refreshBurst jobIds n false).1.countP isStarted = 1
        ∧ (refreshBurst jobIds n false).1.countP
            (fun r => r = RefreshResponse.alreadyRunning) = n - 1
        ∧ (refreshBurst jobIds n false).2 = true)
    ∧ (∀ (env : RunEnv) (st : Store),
        (runRefresh env st).2.countP (fun e => e = Event.release) = 1) := by
  constructor
  · intro jobIds n hn
    obtain ⟨m, rfl⟩ : ∃ m, n = m + 1 := ⟨n - 1, by omega⟩
    have hstep : refreshBurst jobIds (m + 1) false
        = (RefreshResponse.started (jobIds m) :: List.replicate m .alreadyRunning, true) := by
      have hrun := refreshBurst_running jobIds m
      simp [refreshBurst, handleRefresh, tryStart, hrun]
    rw [hstep]
    refine ⟨?_, ?_, rfl⟩
    · rw [List.countP_cons]
      have hz : (List.replicate m RefreshResponse.alreadyRunning).countP isStarted = 0 := by
        rw [List.countP_eq_zero]
        intro a ha
        rw [List.eq_of_mem_replicate ha]
        simp [isStarted]
      rw [hz]
      rfl
    · rw [List.countP_cons]
      have hall : (List.replicate m RefreshResponse.alreadyRunning).countP
          (fun r => r = RefreshResponse.alreadyRunning) = m := by
        have := List.countP_eq_length (p := fun r => decide (r = RefreshResponse.alreadyRunning))
          (l := List.replicate m RefreshResponse.alreadyRunning)
        rw [this.mpr ?_, List.length_replicate]
        intro a ha
        rw [List.eq_of_mem_replicate ha]
        simp
      rw [hall]
      simp
  · intro env st
    by_cases hs : env.startJobOk
    · simp only [runRefresh, hs, if_true]
      have hfetch := countP_release_of_all_phase
        (fetchAllProjects_all_phase env.script env.detail env.detailCancel)
      cases herr : (FetchAllProjects env.script env.detail env.detailCancel).error with
      | some err =>
          simp only [herr]
          simp [List.countP_append, List.countP_cons, hfetch, Event.release]
      | none =>
          simp only [herr]
          have hadopt := countP_release_of_all_phase
            (fetchAdoptionDates_all_phase env.adopt env.adoptCancel env.now
              ((FetchAllProjects env.script env.detail env.detailCancel).projects.foldl
                (fun s p => UpsertProject env.now (toDbProject p) s) st.projects))
          have hupsert : ((FetchAllProjects env.script env.detail env.detailCancel).projects.map
              (fun p => Event.upsert p.repoFullName)).countP
              (fun e => e = Event.release) = 0 := by
            rw [List.countP_eq_zero]
            intro a ha
            obtain ⟨p, _, rfl⟩ := List.mem_map.mp ha
            simp
          simp [List.countP_append, List.countP_cons, hfetch, hadopt, hupsert]
    · simp [runRefresh, hs, List.countP_cons]

theorem single_flight_guard_witness :
    1 ≤ 3
      ∧ ((refreshBurst (fun _ => (7 : Int)) 3 false).1.countP isStarted = 1
        ∧ (refreshBurst (fun _ => (7 : Int)) 3 false).1.countP
            (fun r => r = RefreshResponse.alreadyRunning) = 3 - 1
        ∧ (refreshBurst (fun _ => (7 : Int)) 3 false).2 = true) :=
  ⟨by decide, single_flight_guard.1 (fun _ => (7 : Int)) 3 (by decide)⟩

theorem requestedPages_append (a b : List Event) :
    requestedPages (a ++ b) = requestedPages a ++ requestedPages b :=
  List.filterMap_append a b _

theorem lookupRepo_append_of_some :
    ∀ (repos l : List (String × String)) (name path : String),
      lookupRepo repos name = some path → lookupRepo (repos ++ l) name = some path
  | [], l, name, path => by simp [lookupRepo]
  | r :: rs, l, name, path => by
      intro h
      unfold lookupRepo at h ⊢
      rw [List.cons_append]
      by_cases hr : r.1 = name
      · rw [List.find?_cons_of_pos _ (by simpa using hr)] at h ⊢
        exact h
      · rw [List.find?_cons_of_neg _ (by simpa using hr)] at h ⊢
        exact lookupRepo_append_of_some rs l name path h

theorem lookupRepo_mergeItems :
    ∀ (items : List SearchItem) (repos : List (String × String)) (name path : String),
      lookupRepo repos name = some path →
      lookupRepo (mergeItems repos items) name = some path
  | [], repos, name, path => fun h => h
  | it :: its, repos, name, path => fun h => by
      unfold mergeItems
      rw [List.foldl_cons]
      by_cases hx : (lookupRepo repos it.repoFullName).isSome
      · rw [if_pos hx]
        exact lookupRepo_mergeItems its repos name path h
      · rw [if_neg hx]
        exact lookupRepo_mergeItems its _ name path
          (lookupRepo_append_of_some repos _ name path h)

theorem searchLoop_preserves_repo :
    ∀ (script : List ScriptStep) (page : Nat) (repos : List (String × String))
      (evs : List Event) (name path : String),
      lookupRepo repos name = some path →
      lookupRepo (searchLoop script page repos evs).repos name = some path
  | [], page, repos, evs, name, path => fun h => h
  | .cancel :: rest, page, repos, evs, name, path => fun h => h
  | .rateLimited :: rest, page, repos, evs, name, path => fun h => by
      simp only [searchLoop]
      exact searchLoop_preserves_repo rest page repos _ name path h
  | .apiError msg :: rest, page, repos, evs, name, path => fun h => h
  | .ok resp :: rest, page, repos, evs, name, path => fun h => by
      simp only [searchLoop]
      have hm := lookupRepo_mergeItems resp.items repos name path h
      by_cases h1 : resp.items.length < perPage ∨ resp.totalCount ≤ page * perPage
      · rw [if_pos h1]
        exact hm
      · rw [if_neg h1]
        by_cases h2 : 10 ≤ page
        · rw [if_pos h2]
          exact hm
        · rw [if_neg h2]
          exact searchLoop_preserves_repo rest (page + 1) _ _ name path hm

theorem searchLoop_pages_bounded :
    ∀ (script : List ScriptStep) (page : Nat) (repos : List (String × String))
      (evs : List Event) (q : Nat),
      page ≤ 10 → q ∈ requestedPages (searchLoop script page repos evs).events →
      q ∈ requestedPages evs ∨ q ≤ 10
  | [], page, repos, evs, q => fun hp hq => Or.inl hq
  | .cancel :: rest, page, repos, evs, q => fun hp hq => Or.inl hq
  | .rateLimited :: rest, page, repos, evs, q => fun hp hq => by
      simp only [searchLoop] at hq
      rcases searchLoop_pages_bounded rest page repos _ q hp hq with hin | hle
      · rw [requestedPages_append] at hin
        rcases List.mem_append.mp hin with hin | hin
        · exact Or.inl hin
        · simp [requestedPages] at hin
          omega
      · exact Or.inr hle
  | .apiError msg :: rest, page, repos, evs, q => fun hp hq => by
      simp only [searchLoop, requestedPages_append] at hq
      rcases List.mem_append.mp hq with hin | hin
      · exact Or.inl hin
      · simp [requestedPages] at hin
        omega
  | .ok resp :: rest, page, repos, evs, q => fun hp hq => by
      simp only [searchLoop] at hq
      by_cases h1 : resp.items.length < perPage ∨ resp.totalCount ≤ page * perPage
      · rw [if_pos h1] at hq
        simp only [requestedPages_append] at hq
        rcases List.mem_append.mp hq with hin | hin
        · exact Or.inl hin
        · simp [requestedPages] at hin
          omega
      · rw [if_neg h1] at hq
        by_cases h2 : 10 ≤ page
        · rw [if_pos h2] at hq
          simp only [requestedPages_append] at hq
          rcases List.mem_append.mp hq with hin | hin
          · exact Or.inl hin
          · simp [requestedPages] at hin
            omega
        · rw [if_neg h2] at hq
          rcases searchLoop_pages_bounded rest (page + 1) _ _ q (by omega) hq with hin | hle
          · simp only [requestedPages_append] at hin
            rcases List.mem_append.mp hin with hin | hin
            · rcases List.mem_append.mp hin with hin | hin
              · exact Or.inl hin
              · simp [requestedPages] at hin
                omega
            · simp [requestedPages] at hin
          · exact Or.inr hle

theorem searchLoop_full_then_partial
    (lastR : CodeSearchResponse) (rest : List ScriptStep)
    (hlast : lastR.items.length < perPage) :
    ∀ (fulls : List CodeSearchResponse) (page : Nat) (repos : List (String × String))
      (evs : List Event),
      (∀ f ∈ fulls, f.items.length = perPage ∧ 1000 < f.totalCount) →
      page + fulls.length + 1 ≤ 10 →
      searchLoop (fulls.map .ok ++ .ok lastR :: rest) page repos evs
          = searchLoop (fulls.map .ok ++ [.ok lastR]) page repos evs
        ∧ requestedPages (searchLoop (fulls.map .ok ++ .ok lastR :: rest) page repos evs).events
            = requestedPages evs ++ List.range' page (fulls.length + 1)
        ∧ (searchLoop (fulls.map .ok ++ .ok lastR :: rest) page repos evs).status = .ok
  | [], page, repos, evs => by
      intro hfull hpage
      simp only [List.map_nil, List.nil_append]
      have hcond : lastR.items.length < perPage ∨ lastR.totalCount ≤ page * perPage :=
        Or.inl hlast
      refine ⟨?_, ?_, ?_⟩
      · simp only [searchLoop, if_pos hcond]
      · simp only [searchLoop, if_pos hcond, requestedPages_append]
        simp [requestedPages]
      · simp only [searchLoop, if_pos hcond]
  | f :: fs, page, repos, evs => by
      intro hfull hpage
      have hf := hfull f (List.mem_cons_self f fs)
      have hc1 : ¬(f.items.length < perPage ∨ f.totalCount ≤ page * perPage) := by
        push_neg
        constructor
        · omega
        · have hlen : fs.length + 0 ≤ 10 := by simp at hpage ⊢; omega
          have hple : page ≤ 9 := by simp at hpage; omega
          have : page * perPage ≤ 9 * perPage := Nat.mul_le_mul_right perPage hple
          simp [perPage] at this ⊢
          omega
      have hc2 : ¬(10 ≤ page) := by simp at hpage; omega
      have ih := searchLoop_full_then_partial lastR rest hlast fs (page + 1)
        (mergeItems repos f.items) ((evs ++ [.httpRequest page]) ++ [.sleepMs 6000])
        (fun g hg => hfull g (List.mem_cons_of_mem f hg)) (by simp at hpage ⊢; omega)
      refine ⟨?_, ?_, ?_⟩
      · simp only [List.map_cons, List.cons_append, searchLoop, if_neg hc1, if_neg hc2]
        exact ih.1
      · simp only [List.map_cons, List.cons_append, searchLoop, if_neg hc1, if_neg hc2,
          List.append_eq]
        rw [ih.2.1]
        simp only [requestedPages_append]
        simp [requestedPages, List.range'_succ]
      · simp only [List.map_cons, List.cons_append, searchLoop, if_neg hc1, if_neg hc2]
        exact ih.2.2

/-- C4: the crawler pages from page 1 with page size 100; it keeps the
first file path seen per repository (a stored path is never changed by a
later duplicate hit, within a page or on a later page); it stops after a
page that is short or that reaches `total_count`, and never requests a page
beyond the absolute 10-page ceiling; in particular for a script of full
pages followed by a partially full page it requests exactly pages
`1..N`, succeeds, and never consumes (hence never requests) anything after
that partial page. -/
theorem crawler_pagination
    (fulls : List CodeSearchResponse) (lastR : CodeSearchResponse) (rest : List ScriptStep)
    (hfull : ∀ f ∈ fulls, f.items.length = perPage ∧ 1000 < f.totalCount)
    (hlast : lastR.items.length < perPage)
    (hlen : fulls.length + 2 ≤ 10) :
    SearchDHIDockerfiles (fulls.map .ok ++ .ok lastR :: rest)
        = SearchDHIDockerfiles (fulls.map .ok ++ [.ok lastR])
      ∧ requestedPages (SearchDHIDockerfiles (fulls.map .ok ++ .ok lastR :: rest)).events
          = List.range' 1 (fulls.length + 1)
      ∧ (SearchDHIDockerfiles (fulls.map .ok ++ .ok lastR :: rest)).status = .ok
      ∧ (∀ (script : List ScriptStep) (q : Nat),
          q ∈ requestedPages (SearchDHIDockerfiles script).events → q ≤ 10)
      ∧ (∀ (repos : List (String × String)) (items : List SearchItem) (name path : String),
          lookupRepo repos name = some path →
            lookupRepo (mergeItems repos items) name = some path)
      ∧ (∀ (script : List ScriptStep) (page : Nat) (repos : List (String × String))
            (evs : List Event) (name path : String),
          lookupRepo repos name = some path →
            lookupRepo (searchLoop script page repos evs).repos name = some path)
      ∧ (∀ (r : CodeSearchResponse) (rest' : List ScriptStep) (page : Nat)
            (repos : List (String × String)) (evs : List Event),
          r.items.length < perPage ∨ r.totalCount ≤ page * perPage →
            searchLoop (.ok r :: rest') page repos evs
              = ⟨mergeItems repos r.items, .ok, evs ++ [.httpRequest page]⟩) := by
  have main := searchLoop_full_then_partial lastR rest hlast fulls 1 [] []
    hfull (by omega)
  refine ⟨main.1, ?_, main.2.2, ?_, ?_, ?_, ?_⟩
  · show requestedPages
        (searchLoop (fulls.map .ok ++ .ok lastR :: rest) 1 [] []).events = _
    rw [main.2.1]
    simp [requestedPages]
  · intro script q hq
    rcases searchLoop_pages_bounded script 1 [] [] q (by omega) hq with hin | hle
    · simp [requestedPages] at hin
    · exact hle
  · intro repos items name path h
    exact lookupRepo_mergeItems items repos name path h
  · intro script page repos evs name path h
    exact searchLoop_preserves_repo script page repos evs name path h
  · intro r rest' page repos evs hstop
    simp only [searchLoop, if_pos hstop]

theorem crawler_pagination_witness :
    ((∀ f ∈ ([] : List CodeSearchResponse), f.items.length = perPage ∧ 1000 < f.totalCount)
      ∧ (CodeSearchResponse.mk 1 [⟨"Dockerfile", "octo/repo", "u"⟩]).items.length < perPage
      ∧ 0 + 2 ≤ 10)
    ∧ requestedPages (SearchDHIDockerfiles
          ([] ++ .ok (CodeSearchResponse.mk 1 [⟨"Dockerfile", "octo/repo", "u"⟩])
            :: [.apiError "never reached"])).events
        = List.range' 1 1 :=
  ⟨⟨by simp, by decide, by decide⟩,
    (crawler_pagination [] (CodeSearchResponse.mk 1 [⟨"Dockerfile", "octo/repo", "u"⟩])
      [.apiError "never reached"] (by simp) (by decide) (by decide)).2.1⟩

theorem searchLoop_append :
    ∀ (script : List ScriptStep) (page : Nat) (repos : List (String × String))
      (evs : List Event),
      searchLoop script page repos evs
        = ⟨(searchLoop script page repos []).repos, (searchLoop script page repos []).status,
            evs ++ (searchLoop script page repos []).events⟩
  | [], page, repos, evs => by simp [searchLoop]
  | .cancel :: rest, page, repos, evs => by simp [searchLoop]
  | .apiError msg :: rest, page, repos, evs => by simp [searchLoop]
  | .rateLimited :: rest, page, repos, evs => by
      simp only [searchLoop]
      rw [searchLoop_append rest page repos
          (evs ++ [Event.httpRequest page, Event.sleepMs 60000]),
        searchLoop_append rest page repos
          ([] ++ [Event.httpRequest page, Event.sleepMs 60000])]
      simp
  | .ok resp :: rest, page, repos, evs => by
      simp only [searchLoop]
      by_cases h1 : resp.items.length < perPage ∨ resp.totalCount ≤ page * perPage
      · simp only [if_pos h1]
        simp
      · simp only [if_neg h1]
        by_cases h2 : 10 ≤ page
        · simp only [if_pos h2]
          simp
        · simp only [if_neg h2]
          rw [searchLoop_append rest (page + 1) (mergeItems repos resp.items)
              (evs ++ [Event.httpRequest page] ++ [Event.sleepMs 6000]),
            searchLoop_append rest (page + 1) (mergeItems repos resp.items)
              ([] ++ [Event.httpRequest page] ++ [Event.sleepMs 6000])]
          simp

theorem searchLoop_no_backoff :
    ∀ (script : List ScriptStep) (page : Nat) (repos : List (String × String))
      (evs : List Event),
      (∀ st ∈ script, st ≠ .rateLimited) →
      (searchLoop script page repos evs).events.countP (fun e => e = Event.sleepMs 60000)
        = evs.countP (fun e => e = Event.sleepMs 60000)
  | [], page, repos, evs => fun h => rfl
  | .cancel :: rest, page, repos, evs => fun h => rfl
  | .rateLimited :: rest, page, repos, evs => fun h =>
      absurd rfl (h .rateLimited (List.mem_cons_self _ _))
  | .apiError msg :: rest, page, repos, evs => fun h => by
      simp only [searchLoop]
      simp [List.countP_append]
  | .ok resp :: rest, page, repos, evs => fun h => by
      simp only [searchLoop]
      by_cases h1 : resp.items.length < perPage ∨ resp.totalCount ≤ page * perPage
      · simp only [if_pos h1]
        simp [List.countP_append]
      · simp only [if_neg h1]
        by_cases h2 : 10 ≤ page
        · simp only [if_pos h2]
          simp [List.countP_append]
        · simp only [if_neg h2]
          rw [searchLoop_no_backoff rest (page + 1) _ _
            (fun st hst => h st (List.mem_cons_of_mem _ hst))]
          simp [List.countP_append]

theorem searchLoop_no_fail :
    ∀ (script : List ScriptStep) (page : Nat) (repos : List (String × String))
      (evs : List Event),
      (∀ st ∈ script, st ≠ .cancel ∧ ∀ msg, st ≠ .apiError msg) →
      (searchLoop script page repos evs).status = .ok
        ∨ (searchLoop script page repos evs).status = .starved
  | [], page, repos, evs => fun h => Or.inr rfl
  | .cancel :: rest, page, repos, evs => fun h =>
      absurd rfl (h .cancel (List.mem_cons_self _ _)).1
  | .apiError msg :: rest, page, repos, evs => fun h =>
      absurd rfl ((h (.apiError msg) (List.mem_cons_self _ _)).2 msg)
  | .rateLimited :: rest, page, repos, evs => fun h => by
      simp only [searchLoop]
      exact searchLoop_no_fail rest page repos _
        (fun st hst => h st (List.mem_cons_of_mem _ hst))
  | .ok resp :: rest, page, repos, evs => fun h => by
      simp only [searchLoop]
      by_cases h1 : resp.items.length < perPage ∨ resp.totalCount ≤ page * perPage
      · simp only [if_pos h1]
        exact Or.inl (by trivial)
      · simp only [if_neg h1]
        by_cases h2 : 10 ≤ page
        · simp only [if_pos h2]
          exact Or.inl (by trivial)
        · simp only [if_neg h2]
          exact searchLoop_no_fail rest (page + 1) _ _
            (fun st hst => h st (List.mem_cons_of_mem _ hst))

/-- C5: a rate-limited search request makes the crawler sleep the fixed
back-off and retry the same page without advancing (first conjunct, at any
loop state); a script that rate-limits once and then proceeds yields the
same repo map and final status as the script without the rate limit, with
exactly one back-off sleep when the remainder never rate-limits (no data
loss); and a crawl whose script contains no cancellation and no
non-rate-limit API error never fails. -/
theorem crawler_rate_limit_recovery :
    (∀ (s : List ScriptStep) (page : Nat) (repos : List (String × String))
        (evs : List Event),
        searchLoop (.rateLimited :: s) page repos evs
          = searchLoop s page repos (evs ++ [.httpRequest page, .sleepMs 60000]))
    ∧ (∀ s : List ScriptStep,
        (SearchDHIDockerfiles (.rateLimited :: s)).repos = (SearchDHIDockerfiles s).repos
          ∧ (SearchDHIDockerfiles (.rateLimited :: s)).status = (SearchDHIDockerfiles s).status
          ∧ (SearchDHIDockerfiles (.rateLimited :: s)).events
              = [.httpRequest 1, .sleepMs 60000] ++ (SearchDHIDockerfiles s).events)
    ∧ (∀ s : List ScriptStep, (∀ st ∈ s, st ≠ .rateLimited) →
        (SearchDHIDockerfiles (.rateLimited :: s)).events.countP
          (fun e => e = Event.sleepMs 60000) = 1)
    ∧ (∀ s : List ScriptStep,
        (∀ st ∈ s, st ≠ .cancel ∧ ∀ msg, st ≠ .apiError msg) →
        (SearchDHIDockerfiles s).status = .ok ∨ (SearchDHIDockerfiles s).status = .starved) := by
  have hhead : ∀ s : List ScriptStep,
      SearchDHIDockerfiles (.rateLimited :: s)
        = ⟨(SearchDHIDockerfiles s).repos, (SearchDHIDockerfiles s).status,
            [.httpRequest 1, .sleepMs 60000] ++ (SearchDHIDockerfiles s).events⟩ := by
    intro s
    show searchLoop (.rateLimited :: s) 1 [] [] = _
    simp only [searchLoop]
    rw [searchLoop_append s 1 []
      ([] ++ [Event.httpRequest 1, Event.sleepMs 60000])]
    rfl
  refine ⟨?_, ?_, ?_, ?_⟩
  · intro s page repos evs
    simp only [searchLoop]
  · intro s
    rw [hhead s]
    exact ⟨rfl, rfl, rfl⟩
  · intro s hs
    rw [hhead s]
    simp only [List.countP_append]
    rw [show (SearchDHIDockerfiles s).events.countP (fun e => e = Event.sleepMs 60000) = 0
      from searchLoop_no_backoff s 1 [] [] hs]
    decide
  · intro s hs
    exact searchLoop_no_fail s 1 [] [] hs

theorem crawler_rate_limit_recovery_witness :
    (∀ st ∈ [ScriptStep.ok (CodeSearchResponse.mk 1 [⟨"Dockerfile", "octo/repo", "u"⟩])],
        st ≠ .rateLimited)
    ∧ (SearchDHIDockerfiles
        (.rateLimited :: [ScriptStep.ok (CodeSearchResponse.mk 1 [⟨"Dockerfile", "octo/repo", "u"⟩])])).events.countP
          (fun e => e = Event.sleepMs 60000) = 1 :=
  ⟨by decide,
    crawler_rate_limit_recovery.2.2.1
      [ScriptStep.ok (CodeSearchResponse.mk 1 [⟨"Dockerfile", "octo/repo", "u"⟩])]
      (by decide)⟩

/-- Whether provider construction succeeds for a config. -/
def providerOk (config : NotificationConfig) : Bool :=
  match createProvider config with
  | .ok _ => true
  | .error _ => false

/-- The audit-log row one send attempt produces. -/
def sendLogEntry (sendOk : Int → Int → Bool) (now : Int) (config : NotificationConfig)
    (project : DbProject) : NotificationLog :=
  if sendOk config.id project.id then ⟨config.id, some project.id, "sent", "", now⟩
  else ⟨config.id, some project.id, "failed", "send error", now⟩

/-- All audit-log rows one config contributes during a fan-out pass. -/
def configLogs (sendOk : Int → Int → Bool) (now : Int) (projects : List DbProject)
    (config : NotificationConfig) : List NotificationLog :=
  match createProvider config with
  | .error e => [⟨config.id, none, "failed", "failed to create provider: " ++ e, now⟩]
  | .ok _ => projects.map (sendLogEntry sendOk now config)

theorem sendLoop_state (sendOk : Int → Int → Bool) (now : Int)
    (config : NotificationConfig) :
    ∀ (projects : List DbProject) (st : NotifyState),
      projects.foldl
          (fun st project =>
            if sendOk config.id project.id then
              logNotification now config.id (some project.id) "sent" "" st
            else
              logNotification now config.id (some project.id) "failed" "send error" st)
          st
        = ⟨st.configs, st.logs ++ projects.map (sendLogEntry sendOk now config)⟩
  | [], st => by simp
  | project :: rest, st => by
      rw [List.foldl_cons, sendLoop_state sendOk now config rest]
      by_cases hp : sendOk config.id project.id
      · simp [hp, logNotification, sendLogEntry]
      · simp [hp, logNotification, sendLogEntry]

theorem notifyConfigStep_spec (sendOk : Int → Int → Bool) (now : Int)
    (projects : List DbProject) (st : NotifyState) (config : NotificationConfig) :
    notifyConfigStep sendOk now projects st config
      = ⟨(if providerOk config then
            st.configs.map (fun c =>
              if c.id = config.id then { c with lastTriggeredAt := some now } else c)
          else st.configs),
          st.logs ++ configLogs sendOk now projects config⟩ := by
  unfold notifyConfigStep providerOk configLogs
  cases hp : createProvider config with
  | error e => simp [logNotification]
  | ok pr =>
      rw [sendLoop_state sendOk now config projects st]
      simp [UpdateNotificationTriggered]

theorem notifyFold_logs (sendOk : Int → Int → Bool) (now : Int)
    (projects : List DbProject) :
    ∀ (cfgs : List NotificationConfig) (st : NotifyState),
      (cfgs.foldl (notifyConfigStep sendOk now projects) st).logs
        = st.logs ++ cfgs.flatMap (configLogs sendOk now projects)
  | [], st => by simp
  | cfg :: rest, st => by
      rw [List.foldl_cons, notifyFold_logs sendOk now projects rest,
        notifyConfigStep_spec]
      simp

theorem notifyFold_configs (sendOk : Int → Int → Bool) (now : Int)
    (projects : List DbProject) :
    ∀ (cfgs : List NotificationConfig) (st : NotifyState),
      (cfgs.foldl (notifyConfigStep sendOk now projects) st).configs
        = st.configs.map (fun c =>
            if cfgs.any (fun d => providerOk d && d.id == c.id) then
              { c with lastTriggeredAt := some now }
            else c)
  | [], st => by simp
  | cfg :: rest, st => by
      rw [List.foldl_cons, notifyFold_configs sendOk now projects rest,
        notifyConfigStep_spec]
      by_cases hp : providerOk cfg
      · simp only [hp, if_true, List.map_map]
        congr 1
        funext c
        by_cases hc : c.id = cfg.id
        · by_cases hr : rest.any (fun d => providerOk d && d.id == c.id)
          · simp [Function.comp, hc, hr, List.any_cons, hp]
          · simp [Function.comp, hc, hr, List.any_cons, hp]
        · by_cases hr : rest.any (fun d => providerOk d && d.id == c.id)
          · simp [Function.comp, hc, hr, List.any_cons, hp]
          · simp [Function.comp, hc, hr, List.any_cons, hp]
            exact (if_neg (fun h => hc h.symm)).symm
      · simp only [hp, if_false]
        congr 1
        funext c
        have : (cfg :: rest).any (fun d => providerOk d && d.id == c.id)
            = rest.any (fun d => providerOk d && d.id == c.id) := by
          simp [List.any_cons, hp]
        rw [this]

theorem configLogs_configId (sendOk : Int → Int → Bool) (now : Int)
    (projects : List DbProject) (config : NotificationConfig) :
    ∀ l ∈ configLogs sendOk now projects config, l.configId = config.id := by
  intro l hl
  unfold configLogs at hl
  cases hcp : createProvider config with
  | error e =>
      rw [hcp] at hl
      simp at hl
      subst hl
      rfl
  | ok pr =>
      rw [hcp] at hl
      obtain ⟨p, _, rfl⟩ := List.mem_map.mp hl
      unfold sendLogEntry
      by_cases hp : sendOk config.id p.id <;> simp [hp]

theorem filter_flatMap_configLogs (sendOk : Int → Int → Bool) (now : Int)
    (projects : List DbProject) (c : NotificationConfig) :
    ∀ cfgs : List NotificationConfig, (cfgs.map (·.id)).Nodup → c ∈ cfgs →
      (cfgs.flatMap (configLogs sendOk now projects)).filter
          (fun l => l.configId = c.id)
        = configLogs sendOk now projects c
  | [], hnd, hc => absurd hc (List.not_mem_nil c)
  | d :: rest, hnd, hc => by
      rw [List.flatMap_cons, List.filter_append]
      have hnd' : (d.id :: rest.map (·.id)).Nodup := by
        rw [List.map_cons] at hnd
        exact hnd
      have hdnotin : d.id ∉ rest.map (·.id) := (List.nodup_cons.mp hnd').1
      rcases List.mem_cons.mp hc with rfl | hmem
      · have hhead : (configLogs sendOk now projects c).filter
            (fun l => l.configId = c.id) = configLogs sendOk now projects c := by
          rw [List.filter_eq_self]
          intro l hl
          simp [configLogs_configId sendOk now projects c l hl]
        have hrest : (rest.flatMap (configLogs sendOk now projects)).filter
            (fun l => l.configId = c.id) = [] := by
          rw [List.filter_eq_nil_iff]
          intro l hl
          obtain ⟨e, he, hle⟩ := List.mem_flatMap.mp hl
          have hid := configLogs_configId sendOk now projects e l hle
          have : e.id ≠ c.id := by
            intro heq
            exact hdnotin (heq ▸ List.mem_map_of_mem (·.id) he)
          simp [hid, this]
        rw [hhead, hrest, List.append_nil]
      · have hdc : d.id ≠ c.id := by
          intro heq
          exact hdnotin (heq ▸ List.mem_map_of_mem (·.id) hmem)
        have hhead : (configLogs sendOk now projects d).filter
            (fun l => l.configId = c.id) = [] := by
          rw [List.filter_eq_nil_iff]
          intro l hl
          have hid := configLogs_configId sendOk now projects d l hl
          simp [hid, hdc]
        rw [hhead, List.nil_append]
        exact filter_flatMap_configLogs sendOk now projects c rest
          (List.nodup_cons.mp hnd').2 hmem

/-- C8: the fan-out is a no-op on an empty record list; an enabled config
whose provider cannot be constructed gets exactly one `failed` log row with
a null record id and its last-triggered timestamp untouched, while the
loop continues; an enabled config with a working provider gets exactly one
log row per record, tagged `sent` or `failed` by the send outcome, and its
last-triggered timestamp is stamped even if every send failed. -/
theorem notify_fanout (sendOk : Int → Int → Bool) (now : Int)
    (projects : List DbProject) (st : NotifyState)
    (hids : (st.configs.map (·.id)).Nodup) (hne : projects ≠ []) :
    NotifyNewProjects sendOk now [] st = st
    ∧ (∀ c ∈ st.configs, c.enabled = true →
        (∀ e, createProvider c = .error e →
          ((NotifyNewProjects sendOk now projects st).logs.filter
              (fun l => l.configId = c.id))
            = st.logs.filter (fun l => l.configId = c.id)
              ++ [⟨c.id, none, "failed", "failed to create provider: " ++ e, now⟩]
          ∧ (∀ c' ∈ (NotifyNewProjects sendOk now projects st).configs,
              c'.id = c.id → c'.lastTriggeredAt = c.lastTriggeredAt))
        ∧ (∀ pr, createProvider c = .ok pr →
          ((NotifyNewProjects sendOk now projects st).logs.filter
              (fun l => l.configId = c.id))
            = st.logs.filter (fun l => l.configId = c.id)
              ++ projects.map (sendLogEntry sendOk now c)
          ∧ (∀ c' ∈ (NotifyNewProjects sendOk now projects st).configs,
              c'.id = c.id → c'.lastTriggeredAt = some now))) := by
  have hrun : NotifyNewProjects sendOk now projects st
      = (GetEnabledNotificationConfigs st).foldl
          (notifyConfigStep sendOk now projects) st := by
    unfold NotifyNewProjects
    rw [if_neg (by simpa [List.isEmpty_iff] using hne)]
  have hEnNodup : ((GetEnabledNotificationConfigs st).map (·.id)).Nodup :=
    ((List.filter_sublist st.configs).map (·.id)).nodup hids
  constructor
  · rfl
  · intro c hc hen
    have hcEn : c ∈ GetEnabledNotificationConfigs st :=
      List.mem_filter.mpr ⟨hc, hen⟩
    have hlogs : (NotifyNewProjects sendOk now projects st).logs.filter
        (fun l => l.configId = c.id)
        = st.logs.filter (fun l => l.configId = c.id)
          ++ configLogs sendOk now projects c := by
      rw [hrun, notifyFold_logs, List.filter_append,
        filter_flatMap_configLogs sendOk now projects c _ hEnNodup hcEn]
    have hconfigs := notifyFold_configs sendOk now projects
      (GetEnabledNotificationConfigs st) st
    constructor
    · intro e he
      constructor
      · rw [hlogs]
        unfold configLogs
        rw [he]
      · intro c' hc' hid
        rw [hrun, hconfigs] at hc'
        obtain ⟨c0, hc0, rfl⟩ := List.mem_map.mp hc'
        have hcond : (GetEnabledNotificationConfigs st).any
            (fun d => providerOk d && d.id == c0.id) = false := by
          by_contra hany
          rw [Bool.not_eq_false, List.any_eq_true] at hany
          obtain ⟨d, hd, hdp⟩ := hany
          rw [Bool.and_eq_true, beq_iff_eq] at hdp
          have hdmem : d ∈ st.configs := (List.mem_filter.mp hd).1
          have hid0 : c0.id = c.id := by
            revert hid
            split <;> (intro hid; simpa using hid)
          have : d = c := List.inj_on_of_nodup_map hids hdmem hc
            (by rw [hdp.2, hid0])
          rw [this, providerOk, he] at hdp
          exact Bool.false_ne_true hdp.1
        rw [if_neg (by simp [hcond])] at hid ⊢
        have : c0 = c := List.inj_on_of_nodup_map hids hc0 hc hid
        rw [this]
    · intro pr hpr
      constructor
      · rw [hlogs]
        unfold configLogs
        rw [hpr]
      · intro c' hc' hid
        rw [hrun, hconfigs] at hc'
        obtain ⟨c0, hc0, rfl⟩ := List.mem_map.mp hc'
        have hid0 : c0.id = c.id := by
          revert hid
          split <;> (intro hid; simpa using hid)
        have hc0c : c0 = c := List.inj_on_of_nodup_map hids hc0 hc hid0
        subst hc0c
        have hcond : (GetEnabledNotificationConfigs st).any
            (fun d => providerOk d && d.id == c0.id) = true := by
          rw [List.any_eq_true]
          exact ⟨c0, hcEn, by simp [providerOk, hpr]⟩
        rw [if_pos (by simp [hcond])]

/-- Concrete configs used by the notification witness: a valid Slack config
and one with an unknown channel type. -/
def sampleSlackConfig : NotificationConfig :=
  { id := 1, name := "team", type := "slack"
    configJSON := .slackPayload "https://hooks.example/x" none
    enabled := true, lastTriggeredAt := none, createdAt := 0, updatedAt := 0 }

def sampleBadConfig : NotificationConfig :=
  { id := 2, name := "pager", type := "pagerduty"
    configJSON := .malformed
    enabled := true, lastTriggeredAt := none, createdAt := 0, updatedAt := 0 }

theorem notify_fanout_witness :
    (([sampleSlackConfig, sampleBadConfig].map (·.id)).Nodup
      ∧ [{ baseProject with adoptedAt := some 10 }] ≠ [])
    ∧ NotifyNewProjects (fun _ _ => true) 11 []
        ⟨[sampleSlackConfig, sampleBadConfig], []⟩
      = ⟨[sampleSlackConfig, sampleBadConfig], []⟩ :=
  ⟨⟨by decide, by decide⟩,
    (notify_fanout (fun _ _ => true) 11 [{ baseProject with adoptedAt := some 10 }]
      ⟨[sampleSlackConfig, sampleBadConfig], []⟩ (by decide) (by decide)).1⟩

/-- Events one backfill record contributes: one lookup (plus the 60s sleep
and one retry when the first attempt was rate limited), the adoption write
on success, and the 500ms delay only on the successful paths. -/
def adoptRecordEvents (oracle : String → AdoptScript) (p : DbProject) : List Event :=
  match oracle p.repoFullName with
  | .ok _ _ => [.adoptLookup p.repoFullName, .updateAdoption p.id, .sleepMs 500]
  | .rateLimitedThenOk _ _ =>
      [.adoptLookup p.repoFullName, .sleepMs 60000, .adoptLookup p.repoFullName,
        .updateAdoption p.id, .sleepMs 500]
  | .rateLimitedThenErr =>
      [.adoptLookup p.repoFullName, .sleepMs 60000, .adoptLookup p.repoFullName]
  | .otherErr => [.adoptLookup p.repoFullName]

/-- Store effect of one backfill record. -/
def adoptRecordStep (oracle : String → AdoptScript) (now : Int)
    (store : List DbProject) (p : DbProject) : List DbProject :=
  match oracle p.repoFullName with
  | .ok date commitURL => UpdateProjectAdoption now p.id date commitURL store
  | .rateLimitedThenOk date commitURL => UpdateProjectAdoption now p.id date commitURL store
  | .rateLimitedThenErr => store
  | .otherErr => store

/-- The row a backfill pass leaves for a previously-null record. -/
def applyAdoption (oracle : String → AdoptScript) (now : Int) (q : DbProject) : DbProject :=
  match oracle q.repoFullName with
  | .ok date commitURL =>
      { q with adoptedAt := some date, adoptionCommit := commitURL, updatedAt := now }
  | .rateLimitedThenOk date commitURL =>
      { q with adoptedAt := some date, adoptionCommit := commitURL, updatedAt := now }
  | .rateLimitedThenErr => q
  | .otherErr => q

/-- Row lookup by primary key. -/
def findById (store : List DbProject) (j : Int) : Option DbProject :=
  store.find? (fun q => q.id = j)

theorem adoptLoop_no_cancel (oracle : String → AdoptScript) (cancel : Nat → Bool)
    (now : Int) (hnc : ∀ i, cancel i = false) :
    ∀ (todo : List DbProject) (i : Nat) (store : List DbProject) (evs : List Event),
      adoptLoop oracle cancel now todo i store evs
        = (todo.foldl (adoptRecordStep oracle now) store,
            evs ++ todo.flatMap (adoptRecordEvents oracle))
  | [], i, store, evs => by simp [adoptLoop]
  | p :: rest, i, store, evs => by
      have ih := adoptLoop_no_cancel oracle cancel now hnc rest (i + 1)
      simp only [adoptLoop, hnc i, if_neg Bool.false_ne_true, List.foldl_cons,
        List.flatMap_cons]
      cases ho : oracle p.repoFullName <;>
        simp [ih, adoptRecordStep, adoptRecordEvents, ho]

theorem findById_update (now i date : Int) (c : String) :
    ∀ (store : List DbProject) (j : Int),
      findById (UpdateProjectAdoption now i date c store) j
        = if j = i then
            (findById store j).map (fun q =>
              { q with adoptedAt := some date, adoptionCommit := c, updatedAt := now })
          else findById store j
  | [], j => by
      simp [findById, UpdateProjectAdoption]
  | q :: rest, j => by
      unfold findById UpdateProjectAdoption
      rw [List.map_cons]
      have hhead : ((if q.id = i then
          { q with adoptedAt := some date, adoptionCommit := c, updatedAt := now }
          else q) : DbProject).id = q.id := by
        split <;> rfl
      by_cases hqj : q.id = j
      · rw [List.find?_cons_of_pos _ (by simp only [hhead]; simpa using hqj),
          List.find?_cons_of_pos _ (by simpa using hqj)]
        by_cases hji : j = i
        · rw [if_pos hji, if_pos (show q.id = i by rw [hqj]; exact hji),
            Option.map_some']
        · rw [if_neg hji, if_neg (show ¬q.id = i by rw [hqj]; exact hji)]
      · rw [List.find?_cons_of_neg _ (by simp only [hhead]; simpa using hqj),
          List.find?_cons_of_neg _ (by simpa using hqj)]
        exact findById_update now i date c rest j

theorem findById_adoptRecordStep (oracle : String → AdoptScript) (now : Int)
    (store : List DbProject) (p : DbProject) (j : Int) (hne : p.id ≠ j) :
    findById (adoptRecordStep oracle now store p) j = findById store j := by
  unfold adoptRecordStep
  cases oracle p.repoFullName with
  | ok d c =>
      rw [findById_update]
      exact if_neg (fun h => hne h.symm)
  | rateLimitedThenOk d c =>
      rw [findById_update]
      exact if_neg (fun h => hne h.symm)
  | rateLimitedThenErr => rfl
  | otherErr => rfl

theorem findById_fold_untouched (oracle : String → AdoptScript) (now : Int) :
    ∀ (todo store : List DbProject) (j : Int),
      (∀ p ∈ todo, p.id ≠ j) →
      findById (todo.foldl (adoptRecordStep oracle now) store) j = findById store j
  | [], store, j => fun h => rfl
  | p :: rest, store, j => fun h => by
      rw [List.foldl_cons,
        findById_fold_untouched oracle now rest _ j
          (fun r hr => h r (List.mem_cons_of_mem _ hr)),
        findById_adoptRecordStep oracle now store p j (h p (List.mem_cons_self _ _))]

theorem findById_adoptRecordStep_self (oracle : String → AdoptScript) (now : Int)
    (store : List DbProject) (q : DbProject)
    (hfind : findById store q.id = some q) :
    findById (adoptRecordStep oracle now store q) q.id
      = some (applyAdoption oracle now q) := by
  unfold adoptRecordStep applyAdoption
  cases oracle q.repoFullName with
  | ok d c => rw [findById_update, if_pos rfl, hfind, Option.map_some']
  | rateLimitedThenOk d c => rw [findById_update, if_pos rfl, hfind, Option.map_some']
  | rateLimitedThenErr => exact hfind
  | otherErr => exact hfind

theorem findById_fold_processed (oracle : String → AdoptScript) (now : Int) :
    ∀ (todo store : List DbProject) (q : DbProject),
      (todo.map (·.id)).Nodup → q ∈ todo → findById store q.id = some q →
      findById (todo.foldl (adoptRecordStep oracle now) store) q.id
        = some (applyAdoption oracle now q)
  | [], store, q => fun _ hq _ => absurd hq (List.not_mem_nil q)
  | p :: rest, store, q => fun hnd hq hfind => by
      rw [List.map_cons] at hnd
      have hnd' := List.nodup_cons.mp hnd
      rw [List.foldl_cons]
      rcases List.mem_cons.mp hq with rfl | hmem
      · rw [findById_fold_untouched oracle now rest _ q.id
          (fun r hr heq => hnd'.1 (heq ▸ List.mem_map_of_mem (·.id) hr))]
        exact findById_adoptRecordStep_self oracle now store q hfind
      · have hpq : p.id ≠ q.id :=
          fun h => hnd'.1 (h ▸ List.mem_map_of_mem (·.id) hmem)
        exact findById_fold_processed oracle now rest _ q hnd'.2 hmem
          (by rw [findById_adoptRecordStep oracle now store p q.id hpq]; exact hfind)

theorem findById_self :
    ∀ (store : List DbProject), (store.map (·.id)).Nodup →
      ∀ q ∈ store, findById store q.id = some q
  | [], _, q, hq => absurd hq (List.not_mem_nil q)
  | r :: rest, hnd, q, hq => by
      rw [List.map_cons] at hnd
      have hnd' := List.nodup_cons.mp hnd
      unfold findById
      by_cases hr : r.id = q.id
      · rw [List.find?_cons_of_pos _ (by simpa using hr)]
        rcases List.mem_cons.mp hq with rfl | hmem
        · rfl
        · exact absurd (hr ▸ List.mem_map_of_mem (·.id) hmem) hnd'.1
      · rw [List.find?_cons_of_neg _ (by simpa using hr)]
        rcases List.mem_cons.mp hq with rfl | hmem
        · exact absurd rfl hr
        · exact findById_self rest hnd'.2 q hmem

/-- C9 as stated is false on the code: when a record's lookup fails, the Go
`continue` jumps past the trailing 500ms sleep, so no inter-record delay is
slept for skipped records.  With two null-adoption records whose lookups
both fail with a non-rate-limit error, the backfill trace contains no 500ms
sleep at all, although the claim requires a delay between every record. -/
theorem backfill_no_delay_on_failure :
    (fetchAdoptionDates (fun _ => .otherErr) (fun _ => false) 50
        [{ baseProject with id := 1, repoFullName := "o/a", adoptedAt := none },
          { baseProject with id := 2, repoFullName := "o/b", adoptedAt := none }]).2
      = [.queryWithoutAdoption, .adoptLookup "o/a", .adoptLookup "o/b"]
    ∧ (fetchAdoptionDates (fun _ => .otherErr) (fun _ => false) 50
        [{ baseProject with id := 1, repoFullName := "o/a", adoptedAt := none },
          { baseProject with id := 2, repoFullName := "o/b", adoptedAt := none }]).2.countP
        (fun e => e = Event.sleepMs 500) = 0 := by
  constructor
  · rfl
  · rfl

/-- C9 (amended): the backfill pass queries and processes exactly the
records with a null adoption timestamp; a rate-limited lookup sleeps 60s
and retries exactly once before giving up on that record; any other
failure skips the record; no record's failure aborts the loop (every
null-adoption record is attempted); the 500ms inter-record delay is slept
only after successfully processed records, skipped records proceed
directly to the next; rows with a non-null adoption timestamp are
untouched; and the pass performs no job-state write and no guard release
(so the job's completion status recorded earlier is unaffected). -/
theorem backfill_pass (oracle : String → AdoptScript) (cancel : Nat → Bool)
    (now : Int) (store : List DbProject)
    (hnc : ∀ i, cancel i = false)
    (hids : (store.map (·.id)).Nodup) :
    (fetchAdoptionDates oracle cancel now store).2
        = .queryWithoutAdoption
            :: (GetProjectsWithoutAdoptionDate store).flatMap (adoptRecordEvents oracle)
      ∧ (∀ q ∈ store, q.adoptedAt = none →
          findById (fetchAdoptionDates oracle cancel now store).1 q.id
            = some (applyAdoption oracle now q))
      ∧ (∀ q ∈ store, q.adoptedAt ≠ none →
          findById (fetchAdoptionDates oracle cancel now store).1 q.id = some q)
      ∧ (∀ e ∈ (fetchAdoptionDates oracle cancel now store).2,
          e ≠ .startJob ∧ e ≠ .release ∧ (∀ m, e ≠ .failJob m)
            ∧ (∀ n, e ≠ .completeJob n)) := by
  have hrun : fetchAdoptionDates oracle cancel now store
      = ((GetProjectsWithoutAdoptionDate store).foldl (adoptRecordStep oracle now) store,
          [.queryWithoutAdoption]
            ++ (GetProjectsWithoutAdoptionDate store).flatMap (adoptRecordEvents oracle)) := by
    unfold fetchAdoptionDates
    exact adoptLoop_no_cancel oracle cancel now hnc _ 0 store _
  have htodoNodup : ((GetProjectsWithoutAdoptionDate store).map (·.id)).Nodup :=
    ((List.filter_sublist store).map (·.id)).nodup hids
  refine ⟨?_, ?_, ?_, ?_⟩
  · rw [hrun]
    rfl
  · intro q hq hnull
    rw [hrun]
    exact findById_fold_processed oracle now _ store q htodoNodup
      (List.mem_filter.mpr ⟨hq, by simp [hnull]⟩)
      (findById_self store hids q hq)
  · intro q hq hsome
    rw [hrun]
    have huntouched : ∀ p ∈ GetProjectsWithoutAdoptionDate store, p.id ≠ q.id := by
      intro p hp heq
      have hpmem : p ∈ store := (List.mem_filter.mp hp).1
      have hpnull : p.adoptedAt.isNone = true := (List.mem_filter.mp hp).2
      have : p = q := List.inj_on_of_nodup_map hids hpmem hq heq
      rw [this] at hpnull
      cases hcase : q.adoptedAt with
      | none => exact hsome hcase
      | some t => rw [hcase] at hpnull; simp at hpnull
    rw [findById_fold_untouched oracle now _ store q.id huntouched]
    exact findById_self store hids q hq
  · intro e he
    have hall := fetchAdoptionDates_all_phase oracle cancel now store
    have hph := (List.all_eq_true.mp hall) e he
    refine ⟨fun h => ?_, fun h => ?_, fun m h => ?_, fun n h => ?_⟩ <;>
      (subst h; simp [isPhaseEvent] at hph)

theorem backfill_pass_witness :
    ((∀ i : Nat, (fun _ : Nat => false) i = false)
      ∧ (([{ baseProject with id := 1, repoFullName := "o/a", adoptedAt := none },
            { baseProject with id := 2, repoFullName := "o/b", adoptedAt := some 3 }] :
              List DbProject).map (·.id)).Nodup)
    ∧ (fetchAdoptionDates
          (fun n => if n = "o/a" then .rateLimitedThenOk 7 "c" else .otherErr)
          (fun _ => false) 50
          [{ baseProject with id := 1, repoFullName := "o/a", adoptedAt := none },
            { baseProject with id := 2, repoFullName := "o/b", adoptedAt := some 3 }]).2
        = .queryWithoutAdoption
            :: (GetProjectsWithoutAdoptionDate
                [{ baseProject with id := 1, repoFullName := "o/a", adoptedAt := none },
                  { baseProject with id := 2, repoFullName := "o/b", adoptedAt := some 3 }]).flatMap
              (adoptRecordEvents
                (fun n => if n = "o/a" then .rateLimitedThenOk 7 "c" else .otherErr)) :=
  ⟨⟨fun _ => rfl, by decide⟩,
    (backfill_pass (fun n => if n = "o/a" then .rateLimitedThenOk 7 "c" else .otherErr)
      (fun _ => false) 50
      [{ baseProject with id := 1, repoFullName := "o/a", adoptedAt := none },
        { baseProject with id := 2, repoFullName := "o/b", adoptedAt := some 3 }]
      (fun _ => rfl) (by decide)).1⟩

theorem startOfWeek_props (t : Int) :
    startOfWeek t ≤ t
      ∧ startOfWeek t % 86400 = 0
      ∧ goWeekday (startOfWeek t) = 1
      ∧ t - startOfWeek t < 7 * 86400 := by
  simp only [startOfWeek, goWeekday]
  split <;> omega

theorem atoiInt_ne_nil {cs : List Char} {n : Int} (h : atoiInt cs = some n) :
    cs ≠ [] := by
  intro he
  rw [he] at h
  simp [atoiInt, digitsVal] at h

theorem parseDuration_concat (cs : List Char) (n : Int) (h : atoiInt cs = some n) :
    parseDuration (String.mk (cs ++ ['d'])) = some (n * 86400)
      ∧ parseDuration (String.mk (cs ++ ['w'])) = some (n * (7 * 86400))
      ∧ parseDuration (String.mk (cs ++ ['h'])) = some (n * 3600) := by
  have hne := atoiInt_ne_nil h
  have hlen : 1 ≤ cs.length := List.length_pos.mpr hne
  refine ⟨?_, ?_, ?_⟩ <;>
    · show parseDuration ⟨cs ++ [_]⟩ = _
      simp only [parseDuration, String.toList]
      rw [if_neg (by simp; omega), List.dropLast_concat, h, List.getLast?_concat]
      rfl

theorem newRecordsSince_parsed (s : String) (d now : Int) (store : List DbProject)
    (hne : s ≠ "") (hnw : s ≠ "thisweek") (hp : parseDuration s = some d) :
    newRecordsSince s now store = some (GetNewProjectsSince (now - d) store) := by
  unfold newRecordsSince
  rw [if_neg hne, if_neg hnw, hp]

theorem mk_concat_ne_abbrev (cs : List Char) (u : Char) (hu : u ≠ 'k') :
    String.mk (cs ++ [u]) ≠ "" ∧ String.mk (cs ++ [u]) ≠ "thisweek" := by
  constructor
  · intro h
    have hd : cs ++ [u] = ([] : List Char) := congrArg String.data h
    simp at hd
  · intro h
    have hd : cs ++ [u] = "thisweek".data := congrArg String.data h
    have hl := congrArg List.getLast? hd
    rw [List.getLast?_concat] at hl
    have : u = 'k' := by
      have : "thisweek".data.getLast? = some 'k' := rfl
      rw [this] at hl
      exact Option.some.inj hl
    exact hu this

/-- Day number (days since the Unix epoch) of 2024-01-01, a Monday, and the
instants of the window-lookup scenario: noons of 2024-01-01, 2024-01-08 and
2024-01-15, and the "now" of the scenario, noon of Tuesday 2024-01-16. -/
def day20240101 : Int := 19723

def jan1noon : Int := day20240101 * 86400 + 43200

def jan8noon : Int := (day20240101 + 7) * 86400 + 43200

def jan15noon : Int := (day20240101 + 14) * 86400 + 43200

def jan16noon : Int := (day20240101 + 15) * 86400 + 43200

def projJan1 : DbProject := { baseProject with id := 11, adoptedAt := some jan1noon }

def projJan8 : DbProject := { baseProject with id := 12, adoptedAt := some jan8noon }

def projJan15 : DbProject := { baseProject with id := 13, adoptedAt := some jan15noon }

/-- A record whose adoption timestamp lies in the future of "now". -/
def futureProject : DbProject := { baseProject with id := 14, adoptedAt := some (jan16noon + 86400) }

/-- C7 as stated is false on the code: `GetNewProjectsSince` has no upper
bound at "now", so `newRecordsSince("thisweek")` returns a record whose
adoption timestamp is strictly greater than now, which does not fall
between Monday 00:00 UTC and now as the claim requires. -/
theorem new_records_window_includes_future :
    newRecordsSince "thisweek" jan16noon [futureProject] = some [futureProject]
      ∧ futureProject.adoptedAt = some (jan16noon + 86400)
      ∧ jan16noon < jan16noon + 86400 := by
  refine ⟨by decide, rfl, by decide⟩

/-- C7 (amended): `newRecordsSince("thisweek")` returns exactly the records
whose adoption timestamp is strictly after Monday 00:00 UTC of the current
calendar week — the code imposes no upper bound at now, so future-dated
adoptions are included too; `startOfWeek` is the Monday-00:00 instant at
most 6 days and a fraction before now, with Sunday treated as day 7;
`"Nd"`/`"Nw"`/`"Nh"` parameters use a cutoff of now minus N days, weeks or
hours; and in the scenario with records adopted at noon of 2024-01-01,
2024-01-08 and 2024-01-15 and now at noon of Tuesday 2024-01-16, `"7d"`
and `"thisweek"` each return exactly the 2024-01-15 record, the week
starting Monday 2024-01-15 00:00 UTC. -/
theorem new_records_window :
    (∀ (now : Int) (store : List DbProject),
        newRecordsSince "thisweek" now store
          = some (GetNewProjectsSince (startOfWeek now) store))
    ∧ (∀ (now : Int) (store : List DbProject) (p : DbProject),
        p ∈ GetNewProjectsSince (startOfWeek now) store
          ↔ p ∈ store ∧ ∃ t, p.adoptedAt = some t ∧ startOfWeek now < t)
    ∧ (∀ t : Int, startOfWeek t ≤ t ∧ startOfWeek t % 86400 = 0
        ∧ goWeekday (startOfWeek t) = 1 ∧ t - startOfWeek t < 7 * 86400)
    ∧ (∀ (cs : List Char) (n now : Int) (store : List DbProject),
        atoiInt cs = some n →
          newRecordsSince (String.mk (cs ++ ['d'])) now store
              = some (GetNewProjectsSince (now - n * 86400) store)
            ∧ newRecordsSince (String.mk (cs ++ ['w'])) now store
              = some (GetNewProjectsSince (now - n * (7 * 86400)) store)
            ∧ newRecordsSince (String.mk (cs ++ ['h'])) now store
              = some (GetNewProjectsSince (now - n * 3600) store))
    ∧ (newRecordsSince "7d" jan16noon [projJan1, projJan8, projJan15]
          = some [projJan15]
        ∧ newRecordsSince "thisweek" jan16noon [projJan1, projJan8, projJan15]
          = some [projJan15]
        ∧ startOfWeek jan16noon = (day20240101 + 14) * 86400
        ∧ goWeekday jan16noon = 2) := by
  refine ⟨?_, ?_, ?_, ?_, ?_⟩
  · intro now store
    rfl
  · intro now store p
    rw [mem_getNewProjectsSince, adoptedAfter_true_iff]
  · exact startOfWeek_props
  · intro cs n now store h
    have hp := parseDuration_concat cs n h
    refine ⟨?_, ?_, ?_⟩
    · exact newRecordsSince_parsed _ _ now store
        (mk_concat_ne_abbrev cs 'd' (by decide)).1
        (mk_concat_ne_abbrev cs 'd' (by decide)).2 hp.1
    · exact newRecordsSince_parsed _ _ now store
        (mk_concat_ne_abbrev cs 'w' (by decide)).1
        (mk_concat_ne_abbrev cs 'w' (by decide)).2 hp.2.1
    · exact newRecordsSince_parsed _ _ now store
        (mk_concat_ne_abbrev cs 'h' (by decide)).1
        (mk_concat_ne_abbrev cs 'h' (by decide)).2 hp.2.2
  · refine ⟨by decide, by decide, by decide, by decide⟩

theorem new_records_window_witness :
    atoiInt ['7'] = some 7
      ∧ newRecordsSince (String.mk (['7'] ++ ['d'])) jan16noon
          [projJan1, projJan8, projJan15]
        = some (GetNewProjectsSince (jan16noon - 7 * 86400)
            [projJan1, projJan8, projJan15]) :=
  ⟨by decide,
    (new_records_window.2.2.2.1 ['7'] 7 jan16noon
      [projJan1, projJan8, projJan15] (by decide)).1⟩

theorem detailLoop_error_none (detail : String → DetailScript) (cancel : Nat → Bool)
    (hnc : ∀ j, cancel j = false) :
    ∀ (repos : List (String × String)) (i : Nat) (acc : List GhProject)
      (evs : List Event),
      (detailLoop detail cancel repos i acc evs).error = none
  | [], i, acc, evs => rfl
  | (name, path) :: rest, i, acc, evs => by
      simp only [detailLoop, hnc i, if_neg Bool.false_ne_true]
      cases detail name <;>
        exact detailLoop_error_none detail cancel hnc rest (i + 1) _ _

/-- Scenario environment for the partial-failure run: the search discovers
repositories `o/a`, `o/b`, `o/c` on one partial page; the detail fetch
succeeds for `o/a` and `o/c` and fails for `o/b` even after its single
rate-limit retry; the backfill lookups all fail; no cancellation. -/
def detailsABC : String → DetailScript :=
  fun n =>
    if n = "o/a" then .ok ⟨"o/a", "https://github.com/o/a", "da", 5, "Go"⟩
    else if n = "o/c" then .ok ⟨"o/c", "https://github.com/o/c", "dc", 9, "Rust"⟩
    else .rateLimitedThenErr

def scriptABC : List ScriptStep :=
  [.ok ⟨3, [⟨"Dockerfile", "o/a", "u"⟩, ⟨"Dockerfile", "o/b", "u"⟩,
    ⟨"Dockerfile", "o/c", "u"⟩]⟩]

def envABC : RunEnv :=
  { startJobOk := true
    script := scriptABC
    detail := detailsABC
    detailCancel := fun _ => false
    adopt := fun _ => .otherErr
    adoptCancel := fun _ => false
    sendOk := fun _ _ => true
    now := 1000 }

/-- C6: with repositories A, B, C discovered and the detail fetch failing
for B only (after its single rate-limit retry), the run upserts exactly A
and C, the job is completed with count 2, the job is never failed, and in
general a repository's detail-fetch failure never aborts the loop (the
detail phase only errors on cancellation). -/
theorem refresh_partial_failure_scenario :
    (runRefresh envABC ⟨[], ⟨[], []⟩⟩).1.projects.map (·.repoFullName) = ["o/a", "o/c"]
      ∧ (runRefresh envABC ⟨[], ⟨[], []⟩⟩).2.filterMap
          (fun e => match e with | .completeJob n => some n | _ => none) = [2]
      ∧ (runRefresh envABC ⟨[], ⟨[], []⟩⟩).2.filterMap
          (fun e => match e with | .failJob m => some m | _ => none) = []
      ∧ (∀ (detail : String → DetailScript) (cancel : Nat → Bool)
            (repos : List (String × String)) (i : Nat) (acc : List GhProject)
            (evs : List Event),
          (∀ j, cancel j = false) →
          (detailLoop detail cancel repos i acc evs).error = none) := by
  refine ⟨by decide, by decide, by decide, ?_⟩
  intro detail cancel repos i acc evs hnc
  exact detailLoop_error_none detail cancel hnc repos i acc evs

theorem refresh_partial_failure_scenario_witness :
    (∀ j : Nat, (fun _ : Nat => false) j = false)
      ∧ (detailLoop detailsABC (fun _ => false)
          [("o/a", "Dockerfile"), ("o/b", "Dockerfile")] 0 [] []).error = none :=
  ⟨fun _ => rfl,
    refresh_partial_failure_scenario.2.2.2 detailsABC (fun _ => false)
      [("o/a", "Dockerfile"), ("o/b", "Dockerfile")] 0 [] [] (fun _ => rfl)⟩
